import Mathlib

/-!
# QApng: the APNG frame composition of `apnghandler.cpp`

A shallow embedding of the animation controller of `src/apnghandler.cpp`
(`copyFrameToImage`, `blendFrame`, `frameInfoCallback`, `frameEndCallback`,
`infoCallback`, `rowCallback`, `endCallback`) together with the small part of
the Qt value types (`QColor`, `QImage`) those functions use, followed by the
theorems that settle the specification's claims on that embedding.

Conventions.
* `quint32` / `png_uint_32` values are `Nat`, reduced `% 2^32` where the source
  does unsigned arithmetic; `int` values are `Int`.
* Colour channels are `Nat` (Qt keeps them in `0..255`); the `int` arithmetic of
  `blendFrame` is done in `Int`.
* what libpng reports through its getters is an explicit argument of the
  callback that reads it.
-/

namespace QApng

/-! ## Machine integers -/

/-- Reduction of a natural number to an unsigned 32-bit value (`quint32`). -/
def toU32 (n : Nat) : Nat := n % 2 ^ 32

/-- Conversion of an unsigned 32-bit value to `int` (two's complement). -/
def toInt32 (u : Nat) : Int :=
  if u % 2 ^ 32 < 2 ^ 31 then ((u % 2 ^ 32 : Nat) : Int) else ((u % 2 ^ 32 : Nat) : Int) - 2 ^ 32

/-- Reduction of an integer to the `int` range (two's complement wrap-around). -/
def wrapInt32 (i : Int) : Int := (i + 2 ^ 31) % 2 ^ 32 - 2 ^ 31

/-- Qt's `qBound(lo, v, hi)`: `max(lo, min(v, hi))`. -/
def qBound (lo v hi : Int) : Int := max lo (min v hi)

/-! ## libpng constants (`png.h`, APNG patch) -/

/-- Modelled from the spec: the macro `PNG_DISPOSE_OP_NONE` of libpng's `png.h` (not under
`src/`); the value is the APNG one for the spec's `NONE`. -/
def PNG_DISPOSE_OP_NONE : Nat := 0

/-- Modelled from the spec: the macro `PNG_DISPOSE_OP_BACKGROUND` of libpng's `png.h` (not
under `src/`); the value is the APNG one for the spec's `BACKGROUND`. -/
def PNG_DISPOSE_OP_BACKGROUND : Nat := 1

/-- Modelled from the spec: the macro `PNG_DISPOSE_OP_PREVIOUS` of libpng's `png.h` (not
under `src/`); the value is the APNG one for the spec's `PREVIOUS`. -/
def PNG_DISPOSE_OP_PREVIOUS : Nat := 2

/-- Modelled from the spec: the macro `PNG_BLEND_OP_SOURCE` of libpng's `png.h` (not under
`src/`); the value is the APNG one for the spec's `SOURCE`. -/
def PNG_BLEND_OP_SOURCE : Nat := 0

/-- Modelled from the spec: the macro `PNG_BLEND_OP_OVER` of libpng's `png.h` (not under
`src/`); the value is the APNG one for the spec's `OVER`. -/
def PNG_BLEND_OP_OVER : Nat := 1

/-! ## Qt value types -/

/-- A stored `Format_ARGB32` pixel (`QRgb`, `0xAARRGGBB`), one field per channel. -/
structure QRgb where
  alpha : Nat
  red : Nat
  green : Nat
  blue : Nat
deriving DecidableEq, Repr

/-- The part of `QColor` the handler uses: the validity flag and four 8-bit channels. -/
structure QColor where
  valid : Bool
  red : Nat
  green : Nat
  blue : Nat
  alpha : Nat
deriving DecidableEq, Repr

namespace QColor

/-- The default-constructed `QColor()`: invalid, channels `(0, 0, 0)`, alpha `255`. -/
def invalid : QColor := { valid := false, red := 0, green := 0, blue := 0, alpha := 255 }

/-- The colour `Qt::transparent`: a valid colour with all four channels `0`. -/
def transparent : QColor := { valid := true, red := 0, green := 0, blue := 0, alpha := 0 }

/-- The method `QColor::setRgb(r, g, b, a)`: a valid colour when every argument is in `0..255`,
the invalid colour otherwise. -/
def setRgb (r g b a : Int) : QColor :=
  if 0 ≤ r ∧ r ≤ 255 ∧ 0 ≤ g ∧ g ≤ 255 ∧ 0 ≤ b ∧ b ≤ 255 ∧ 0 ≤ a ∧ a ≤ 255 then
    { valid := true, red := r.toNat, green := g.toNat, blue := b.toNat, alpha := a.toNat }
  else invalid

/-- The method `QColor::setBlue`: on a colour that is not yet RGB it goes through `setRgb`. -/
def setBlue (c : QColor) (v : Nat) : QColor :=
  if c.valid then { c with blue := v } else setRgb c.red c.green v c.alpha

/-- The method `QColor::setGreen`. -/
def setGreen (c : QColor) (v : Nat) : QColor :=
  if c.valid then { c with green := v } else setRgb c.red v c.blue c.alpha

/-- The method `QColor::setRed`. -/
def setRed (c : QColor) (v : Nat) : QColor :=
  if c.valid then { c with red := v } else setRgb v c.green c.blue c.alpha

/-- The method `QColor::setAlpha`: sets the alpha channel, whatever the colour's validity. -/
def setAlpha (c : QColor) (v : Nat) : QColor := { c with alpha := v }

/-- The stored pixel of a colour (`QColor::rgba`). -/
def rgba (c : QColor) : QRgb :=
  { alpha := c.alpha, red := c.red, green := c.green, blue := c.blue }

/-- The colour of a stored pixel (`QColor::fromRgba`). -/
def fromRgba (p : QRgb) : QColor :=
  { valid := true, red := p.red, green := p.green, blue := p.blue, alpha := p.alpha }

end QColor

/-- A `QImage` of format `Format_ARGB32`: its dimensions and its scan lines. The null image
has dimensions `0 × 0`. -/
structure QImage where
  width : Nat
  height : Nat
  scanLines : List (List QRgb)
deriving DecidableEq, Repr

namespace QImage

/-- The null image `QImage()`. -/
def null : QImage := { width := 0, height := 0, scanLines := [] }

/-- The constructor `QImage(width, height, Format_ARGB32)` on `int` arguments: the null image
unless both are positive. The allocation of the pixel data is taken to succeed. -/
def create (w h : Int) : QImage :=
  if w ≤ 0 ∨ h ≤ 0 then null
  else { width := w.toNat, height := h.toNat,
         scanLines := List.replicate h.toNat (List.replicate w.toNat ⟨0, 0, 0, 0⟩) }

/-- The method `QImage::fill(color)`: every pixel becomes the colour. -/
def fill (img : QImage) (c : QColor) : QImage :=
  { img with scanLines := img.scanLines.map (fun line => line.map (fun _ => c.rgba)) }

/-- An image whose scan lines have the shape its dimensions announce, the dimensions being
`int` values. -/
def WF (img : QImage) : Prop :=
  img.width < 2 ^ 31 ∧ img.height < 2 ^ 31 ∧ img.scanLines.length = img.height ∧
    ∀ line ∈ img.scanLines, line.length = img.width

instance (img : QImage) : Decidable img.WF := by
  unfold WF; infer_instance

/-- The guard of `setPixelColor` and `pixelColor`: the coordinate is inside the image. -/
def inRange (img : QImage) (x y : Int) : Prop :=
  0 ≤ x ∧ x < img.width ∧ 0 ≤ y ∧ y < img.height

instance (img : QImage) (x y : Int) : Decidable (img.inRange x y) := by
  unfold inRange; infer_instance

/-- The method `QImage::setPixelColor(x, y, c)`: nothing happens for a coordinate out of range
or an invalid colour; otherwise the pixel is stored. -/
def setPixelColor (img : QImage) (x y : Int) (c : QColor) : QImage :=
  if img.inRange x y then
    if c.valid then
      { img with scanLines :=
          img.scanLines.set y.toNat ((img.scanLines.getD y.toNat []).set x.toNat c.rgba) }
    else img
  else img

/-- The method `QImage::pixelColor(x, y)`: the invalid colour for a coordinate out of range. -/
def pixelColor (img : QImage) (x y : Int) : QColor :=
  if img.inRange x y then
    QColor.fromRgba ((img.scanLines.getD y.toNat []).getD x.toNat ⟨0, 0, 0, 0⟩)
  else QColor.invalid

end QImage

/-! ## The handler's state -/

/-- The struct `FrameBuf`. The row pointers `rows[j] = p + j * rowbytes` are represented by
the buffer `p` and the stride `rowbytes`. -/
structure FrameBuf where
  x : Nat := 0
  y : Nat := 0
  width : Nat := 0
  height : Nat := 0
  delay_num : Nat := 0
  delay_den : Nat := 100
  dispose_op : Nat := PNG_DISPOSE_OP_NONE
  blend_op : Nat := PNG_BLEND_OP_SOURCE
  rowbytes : Nat := 0
  channels : Int := 4
  p : List Nat := []
deriving DecidableEq, Repr

/-- The struct `ApngContext`, without the device and the libpng handles. -/
structure ApngContext where
  hasError : Bool := false
  isAnimated : Bool := false
  skipFirst : Bool := false
  frameCount : Nat := 1
  lastImage : QImage := QImage.null
  curFrame : FrameBuf := {}
  frames : List QImage := []
  delays : List Int := []
  loopCount : Int := 0
deriving DecidableEq, Repr

/-- The byte `rows[y][i]` of the frame buffer, a `png_byte`; the row pointer is
`p + y * rowbytes`, the product being a `quint32`. -/
def rowByte (f : FrameBuf) (y i : Nat) : Nat := f.p.getD (toU32 (y * f.rowbytes) + i) 0 % 256

/-- The colour both composition loops build from the bytes `B, G, R, A` at `rows[y][4 * x ..]`. -/
def framePixel (f : FrameBuf) (x y : Nat) : QColor :=
  let px := toU32 (x * 4)
  (((QColor.invalid.setBlue (rowByte f y (px + 0))).setGreen (rowByte f y (px + 1))).setRed
    (rowByte f y (px + 2))).setAlpha (rowByte f y (px + 3))

/-- A counted loop `for (quint32 i = 0; i < n; i++)` threading a state. -/
def forRange {α : Type} (n : Nat) (body : α → Nat → α) (init : α) : α :=
  (List.range n).foldl body init

/-- The function `freeFrameBuf`: the row pointers and the pixel buffer are released. -/
def freeFrameBuf (f : FrameBuf) : FrameBuf := { f with p := [] }

/-- The function `copyFrameToImage`. -/
def copyFrameToImage (dest : QImage) (f : FrameBuf) (_source : Bool) : QImage :=
  forRange f.height (fun dest y =>
    forRange f.width (fun dest x =>
      dest.setPixelColor (toInt32 (toU32 (x + f.x))) (toInt32 (toU32 (y + f.y)))
        (framePixel f x y)) dest) dest

/-- The colour `blendFrame` writes for a source colour with `0 < alpha < 255` over the
destination colour `dst`, or `none` when it leaves the pixel alone (`outA == 0`). The `int`
operands are all non-negative, so the divisions are the truncating ones of the source. -/
def blendColor (src dst : QColor) : Option QColor :=
  let sa : Int := src.alpha
  let da : Int := dst.alpha
  let outA : Int := sa + da * (0xff - sa) / 0xff
  if outA ≠ 0 then
    let outR : Int := ((src.red : Int) * sa + (dst.red : Int) * da * (0xff - sa) / 0xff) / outA * 0xff
    let outG : Int :=
      ((src.green : Int) * sa + (dst.green : Int) * da * (0xff - sa) / 0xff) / outA * 0xff
    let outB : Int :=
      ((src.blue : Int) * sa + (dst.blue : Int) * da * (0xff - sa) / 0xff) / outA * 0xff
    some (QColor.setRgb (qBound 0 outR 255) (qBound 0 outG 255) (qBound 0 outB 255) outA)
  else none

/-- The body of the loops of `blendFrame` at frame coordinate `(x, y)`. -/
def blendPixel (dest : QImage) (f : FrameBuf) (x y : Nat) : QImage :=
  let src := framePixel f x y
  let X := toInt32 (toU32 (x + f.x))
  let Y := toInt32 (toU32 (y + f.y))
  if src.alpha = 0xff then dest.setPixelColor X Y src
  else if src.alpha ≠ 0x00 then
    match blendColor src (dest.pixelColor X Y) with
    | some c => dest.setPixelColor X Y c
    | none => dest
  else dest

/-- The function `blendFrame`. -/
def blendFrame (dest : QImage) (f : FrameBuf) : QImage :=
  forRange f.height (fun dest y =>
    forRange f.width (fun dest x => blendPixel dest f x y) dest) dest

/-! ## The progressive-read callbacks -/

/-- What libpng's `png_get_next_frame_*` getters report for the next animation frame. -/
structure NextFrame where
  x_offset : Nat := 0
  y_offset : Nat := 0
  width : Nat := 0
  height : Nat := 0
  delay_num : Nat := 0
  delay_den : Nat := 0
  dispose_op : Nat := 0
  blend_op : Nat := 0
deriving DecidableEq, Repr

/-- What libpng reports to `infoCallback` once the header is read and the transformations are
set: the image size, `png_get_channels`, `png_get_rowbytes`, the content of `acTL` when
`png_get_valid(.., PNG_INFO_acTL)` holds (`num_frames`, `num_plays`),
`png_get_first_frame_is_hidden`, the pending frame information, and the indeterminate bytes of
the freshly allocated pixel buffer. -/
structure PngInfo where
  image_width : Nat := 0
  image_height : Nat := 0
  channels : Int := 4
  rowbytes : Nat := 0
  acTL : Option (Nat × Nat) := none
  first_frame_is_hidden : Nat := 0
  next_frame : NextFrame := {}
  heap : List Nat := []
deriving DecidableEq, Repr

/-- The function `frameInfoCallback`: the frame metadata is overwritten by the announced one. -/
def frameInfoCallback (ctx : ApngContext) (n : NextFrame) : ApngContext :=
  { ctx with curFrame :=
      { ctx.curFrame with
        x := n.x_offset, y := n.y_offset, width := n.width, height := n.height,
        delay_num := n.delay_num, delay_den := n.delay_den,
        dispose_op := n.dispose_op, blend_op := n.blend_op } }

/-- The frame is the hidden first frame, which `frameEndCallback` drops. -/
def isHiddenFrame (ctx : ApngContext) (frame_num : Nat) : Bool :=
  frame_num == 0 && ctx.skipFirst

/-- The frame is the first displayed one, for which `frameEndCallback` overrides the blend
and dispose operations. -/
def isFirstDisplayed (ctx : ApngContext) (frame_num : Nat) : Bool :=
  (frame_num == 0 && !ctx.skipFirst) || (frame_num == 1 && ctx.skipFirst)

/-- The frame metadata after the first-displayed-frame override of `frameEndCallback`. -/
def effectiveFrame (ctx : ApngContext) (frame_num : Nat) : FrameBuf :=
  if isFirstDisplayed ctx frame_num then
    { ctx.curFrame with
      blend_op := PNG_BLEND_OP_SOURCE,
      dispose_op :=
        if ctx.curFrame.dispose_op = PNG_DISPOSE_OP_PREVIOUS then PNG_DISPOSE_OP_BACKGROUND
        else ctx.curFrame.dispose_op }
  else ctx.curFrame

/-- The composition step of `frameEndCallback`: `blendFrame` for `OVER`, `copyFrameToImage`
otherwise. -/
def composeFrame (img : QImage) (f : FrameBuf) : QImage :=
  if f.blend_op = PNG_BLEND_OP_OVER then blendFrame img f else copyFrameToImage img f true

/-- The delay `static_cast<int>((1000.0 * delay_num) / delay_den)` of `frameEndCallback`, `0`
when `delay_den` is `0`, as the integer quotient. The `double` computation it stands for is
`delayMsDouble`; the two agree on 16-bit operands for every rounding of the quotient to a
`double` (theorem `delayMsDouble_eq`). -/
def delayMs (delay_num delay_den : Nat) : Int :=
  if delay_den > 0 then ((1000 * delay_num / delay_den : Nat) : Int) else 0

/-- The conversion `static_cast<int>` of a `double` in the `int` range: truncation toward
zero. -/
def truncToInt (q : ℚ) : Int := if 0 ≤ q then ⌊q⌋ else ⌈q⌉

/-- The delay of `frameEndCallback` through the `double` quotient: the product
`1000.0 * delay_num` is exact, `fl` is the rounding of the exact quotient to a `double`, and
the cast truncates. -/
def delayMsDouble (fl : ℚ → ℚ) (delay_num delay_den : Nat) : Int :=
  if delay_den > 0 then truncToInt (fl ((1000 * delay_num : ℚ) / delay_den)) else 0

/-- The disposal loops of `frameEndCallback` for `BACKGROUND`: the frame region is set to
`Qt::transparent`. -/
def clearRegion (img : QImage) (f : FrameBuf) : QImage :=
  forRange f.height (fun img yy =>
    forRange f.width (fun img xx =>
      img.setPixelColor (toInt32 (toU32 (xx + f.x))) (toInt32 (toU32 (yy + f.y)))
        QColor.transparent) img) img

/-- The function `frameEndCallback`. -/
def frameEndCallback (ctx : ApngContext) (frame_num : Nat) : ApngContext :=
  if isHiddenFrame ctx frame_num then ctx
  else
    let f := effectiveFrame ctx frame_num
    let temp := if f.dispose_op = PNG_DISPOSE_OP_PREVIOUS then ctx.lastImage else QImage.null
    let img := composeFrame ctx.lastImage f
    let frames := ctx.frames ++ [img]
    let delays := ctx.delays ++ [delayMs f.delay_num f.delay_den]
    let img :=
      if f.dispose_op = PNG_DISPOSE_OP_PREVIOUS then temp
      else if f.dispose_op = PNG_DISPOSE_OP_BACKGROUND then clearRegion img f
      else img
    { ctx with curFrame := f, lastImage := img, frames := frames, delays := delays }

/-- The loop count `infoCallback` derives from `plays`: `-1` for `0`, else `int(plays) - 1`
in two's complement `int` arithmetic (the subtraction leaves the `int` range only for
`plays = 2^31`, where it wraps). -/
def loopCountOfPlays (plays : Nat) : Int :=
  if toU32 plays = 0 then -1 else wrapInt32 (toInt32 plays - 1)

/-- The function `infoCallback`. -/
def infoCallback (ctx : ApngContext) (info : PngInfo) : ApngContext :=
  let width := toU32 info.image_width
  let height := toU32 info.image_height
  let lastImage := (QImage.create (toInt32 width) (toInt32 height)).fill QColor.transparent
  let f : FrameBuf :=
    { ctx.curFrame with
      x := 0, y := 0, width := width, height := height, channels := info.channels,
      delay_num := 0, delay_den := 10,
      dispose_op := PNG_DISPOSE_OP_NONE, blend_op := PNG_BLEND_OP_SOURCE,
      rowbytes := toU32 info.rowbytes,
      p := (List.range (toU32 (height * toU32 info.rowbytes))).map (fun i => info.heap.getD i 0) }
  let ctx := { ctx with lastImage := lastImage, curFrame := f }
  match info.acTL with
  | some (num_frames, plays) =>
    let skipFirst := decide (info.first_frame_is_hidden ≠ 0)
    let ctx :=
      { ctx with
        isAnimated := true, frameCount := toU32 num_frames,
        loopCount := loopCountOfPlays plays, skipFirst := skipFirst }
    if !skipFirst then frameInfoCallback ctx info.next_frame else ctx
  | none => { ctx with isAnimated := false }

/-- The function `rowCallback`: `png_progressive_combine_row` (the argument `combine`, given
the memory from the row pointer on and the new row) rewrites the memory at `rows[rowNum]`. -/
def rowCallback (combine : List Nat → List Nat → List Nat) (ctx : ApngContext)
    (rowNum : Nat) (newRow : List Nat) : ApngContext :=
  let f := ctx.curFrame
  let off := toU32 (rowNum * f.rowbytes)
  { ctx with curFrame := { f with p := f.p.take off ++ combine (f.p.drop off) newRow } }

/-- The function `endCallback`. -/
def endCallback (ctx : ApngContext) : ApngContext :=
  if ctx.isAnimated then ctx
  else
    let img := copyFrameToImage ctx.lastImage ctx.curFrame true
    { ctx with
      lastImage := img, frames := ctx.frames ++ [img], delays := ctx.delays ++ [0],
      curFrame := freeFrameBuf ctx.curFrame }

/-- The calls libpng makes into the handler during `png_process_data`. -/
inductive PngEvent where
  | info (i : PngInfo)
  | frameInfo (n : NextFrame)
  | row (rowNum : Nat) (newRow : List Nat)
  | frameEnd (frame_num : Nat)
  | streamEnd
deriving DecidableEq, Repr

/-- One callback invocation. -/
def dispatch (combine : List Nat → List Nat → List Nat) (ctx : ApngContext) :
    PngEvent → ApngContext
  | .info i => infoCallback ctx i
  | .frameInfo n => frameInfoCallback ctx n
  | .row rowNum newRow => rowCallback combine ctx rowNum newRow
  | .frameEnd frame_num => frameEndCallback ctx frame_num
  | .streamEnd => endCallback ctx

/-- The state after a sequence of callback invocations. -/
def runEvents (combine : List Nat → List Nat → List Nat) (ctx : ApngContext)
    (events : List PngEvent) : ApngContext :=
  events.foldl (dispatch combine) ctx

/-- The three outputs of `ensureParsed(device, loopCount, frames, delays)`. -/
structure DecodeOutput where
  loopCount : Int := 0
  frames : List QImage := []
  delays : List Int := []
deriving DecidableEq, Repr

/-- The last step of `ensureParsed`: with at least one frame the outputs are assigned and the
call succeeds, otherwise they are left alone and `done` is returned. -/
def ensureParsedFinish (ctx : ApngContext) (done : Bool) (out : DecodeOutput) :
    Bool × DecodeOutput :=
  if ¬ ctx.frames.isEmpty then
    (true, { loopCount := ctx.loopCount, frames := ctx.frames, delays := ctx.delays })
  else (done, out)

end QApng

namespace QApng

/-! ## Vocabulary of the statements -/

/-- The canvas coordinate `blendFrame`, `copyFrameToImage` and the disposal loop pass to
`setPixelColor` for the frame coordinate `i` and the frame offset `off`: the `quint32` sum
converted to `int`. -/
def canvasCoord (i off : Nat) : Int := toInt32 (toU32 (i + off))

/-- A loop step keeps the dimensions of the image, keeps it well formed, and changes only
the pixels selected by `T`. -/
def LocalStep {ι : Type} (step : QImage → ι → QImage) (T : ι → Int → Int → Prop) : Prop :=
  ∀ img i, (step img i).width = img.width ∧ (step img i).height = img.height ∧
    (img.WF → (step img i).WF ∧
      ∀ X Y, ¬ T i X Y → (step img i).pixelColor X Y = img.pixelColor X Y)

/-- The frame region lies inside the image. -/
def FrameBuf.inBounds (f : FrameBuf) (img : QImage) : Prop :=
  f.x + f.width ≤ img.width ∧ f.y + f.height ≤ img.height

instance (f : FrameBuf) (img : QImage) : Decidable (f.inBounds img) := by
  unfold FrameBuf.inBounds; infer_instance

/-- The canvas coordinate `(X, Y)` lies in the frame region `(x, y, width, height)`. -/
def FrameBuf.covers (f : FrameBuf) (X Y : Int) : Prop :=
  (f.x : Int) ≤ X ∧ X < (f.x : Int) + f.width ∧ (f.y : Int) ≤ Y ∧ Y < (f.y : Int) + f.height

instance (f : FrameBuf) (X Y : Int) : Decidable (f.covers X Y) := by
  unfold FrameBuf.covers; infer_instance

/-! ## The specification's formulas, as the specification words them -/

/-- The output alpha `oa' = sa' + da'·(1 − sa')` of the specification's `OVER`, with
`sa' = sa/255` and `da' = da/255`. -/
def specOverAlpha (sa da : Nat) : ℚ := (sa : ℚ) / 255 + (da : ℚ) / 255 * (1 - (sa : ℚ) / 255)

/-- The output channel `oc' = (sc'·sa' + dc'·da'·(1 − sa')) / oa'` of the specification's
`OVER`. -/
def specOverChannel (sc dc sa da : Nat) : ℚ :=
  ((sc : ℚ) / 255 * ((sa : ℚ) / 255) + (dc : ℚ) / 255 * ((da : ℚ) / 255) * (1 - (sa : ℚ) / 255))
    / specOverAlpha sa da

/-- The specification's rounding of an output in `0..1` to the nearest integer in `0..255`. -/
def specRound255 (q : ℚ) : Nat := (round (255 * q)).toNat

/-- The pixel the specification's `OVER` prescribes for a source colour over a destination
colour (straight-alpha Porter–Duff "source over destination"). -/
def specOver (src dst : QColor) : QColor :=
  { valid := true,
    red := specRound255 (specOverChannel src.red dst.red src.alpha dst.alpha),
    green := specRound255 (specOverChannel src.green dst.green src.alpha dst.alpha),
    blue := specRound255 (specOverChannel src.blue dst.blue src.alpha dst.alpha),
    alpha := specRound255 (specOverAlpha src.alpha dst.alpha) }

/-- The delay `round(1000 · delay_num / delay_den)` of the specification. -/
def specDelay (delay_num delay_den : Nat) : Int := round ((1000 * delay_num : ℚ) / delay_den)

/-! ## Sample inputs -/

/-- A `1 × 1` canvas holding one pixel. -/
def canvas1 (c : QRgb) : QImage := { width := 1, height := 1, scanLines := [[c]] }

/-- A `1 × 1` frame at offset `(0, 0)` whose row holds the bytes `B, G, R, A`, announced with
the given blend and dispose operations. -/
def frame1 (b g r a : Nat) (blend dispose : Nat) : FrameBuf :=
  { x := 0, y := 0, width := 1, height := 1, rowbytes := 4, p := [b, g, r, a],
    blend_op := blend, dispose_op := dispose }

/-- A `2 × 2` opaque red canvas. -/
def redCanvas : QImage :=
  (QImage.create 2 2).fill { valid := true, red := 255, green := 0, blue := 0, alpha := 255 }

/-- A `1 × 1` frame at offset `(1, 1)` holding a half-transparent green pixel. -/
def greenDot (blend dispose : Nat) : FrameBuf :=
  { x := 1, y := 1, width := 1, height := 1, rowbytes := 8, p := [0, 255, 0, 128, 0, 0, 0, 0],
    blend_op := blend, dispose_op := dispose, delay_num := 2, delay_den := 3 }


/-- The context in which the current frame was announced with blend operation `b` and dispose
operation `d`, everything else being as in `ctx`. -/
def announce (ctx : ApngContext) (b d : Nat) : ApngContext :=
  { ctx with curFrame := { ctx.curFrame with blend_op := b, dispose_op := d } }


/-- A context whose canvas is `redCanvas` and whose current frame is `greenDot`; the first
frame is hidden when `skip` holds. -/
def sampleCtx (blend dispose : Nat) (skip : Bool) : ApngContext :=
  { lastImage := redCanvas, curFrame := greenDot blend dispose, skipFirst := skip }


/-- A context whose current frame carries the delay `delay_num / delay_den`. -/
def delayCtx (delay_num delay_den : Nat) : ApngContext :=
  { curFrame := { delay_num := delay_num, delay_den := delay_den } }

/-- A header report announcing an animation with `plays` plays. -/
def animatedInfo (plays : Nat) : PngInfo :=
  { image_width := 2, image_height := 2, rowbytes := 8, acTL := some (2, plays) }


/-- The canvas `infoCallback` allocates for the header: transparent, of the image size. -/
def freshCanvas (info : PngInfo) : QImage :=
  (QImage.create (toInt32 (toU32 info.image_width)) (toInt32 (toU32 info.image_height))).fill
    QColor.transparent

/-- A header report of a non-animated `2 × 1` image. -/
def plainInfo : PngInfo := { image_width := 2, image_height := 1, rowbytes := 8 }

/-- A row combination that takes the new row as it is (a non-interlaced image). -/
def replaceRow (old new : List Nat) : List Nat := new ++ old.drop new.length


/-! ## The byte source -/

/-- A random-access `QIODevice` (a file or a buffer): its bytes, the current position and
whether it is open for reading. -/
structure QIODevice where
  data : List Nat
  pos : Nat := 0
  readable : Bool := true
deriving DecidableEq, Repr

namespace QIODevice

/-- The method `QIODevice::atEnd`: no byte is left after the current position. -/
def atEnd (d : QIODevice) : Bool := decide (d.data.length ≤ d.pos)

/-- The method `QIODevice::seek(pos)` of a random-access device. -/
def seek (d : QIODevice) (p : Nat) : QIODevice := { d with pos := p }

/-- The method `QIODevice::peek(maxSize)`: up to `maxSize` bytes from the current position,
which stays where it is. -/
def peek (d : QIODevice) (maxSize : Nat) : List Nat := (d.data.drop d.pos).take maxSize

/-- The method `QIODevice::read(maxSize)`: up to `maxSize` bytes from the current position,
which advances past them. -/
def read (d : QIODevice) (maxSize : Nat) : List Nat × QIODevice :=
  ((d.data.drop d.pos).take maxSize,
    { d with pos := d.pos + ((d.data.drop d.pos).take maxSize).length })

/-- The number of bytes after the current position. -/
def remaining (d : QIODevice) : Nat := d.data.length - d.pos

end QIODevice

/-- Modelled from the spec: the 8-byte PNG signature libpng's `png_sig_cmp` compares with
(libpng is not under `src/`). -/
def pngSignature : List Nat := [137, 80, 78, 71, 13, 10, 26, 10]

/-- Modelled from the spec: libpng's `png_sig_cmp(sig, 0, 8)` on 8 bytes, `0` exactly when
they are the PNG signature. -/
def png_sig_cmp (sig : List Nat) : Int :=
  if sig.map (fun b => b % 256) = pngSignature then 0 else 1

/-- The static function `APNGHandler::canRead(QIODevice *)`: the verdict and the device
afterwards (`none` is the null pointer). -/
def canRead (device : Option QIODevice) : Bool × Option QIODevice :=
  match device with
  | none => (false, none)
  | some d =>
    if d.readable then
      let d := d.seek 0
      let sig := d.peek 8
      if sig.length < 8 ∨ png_sig_cmp sig ≠ 0 then (false, some d) else (true, some d)
    else (false, some d)

/-- The call `qFromBigEndian<quint32>` on the first four bytes. -/
def qFromBigEndian32 (bytes : List Nat) : Nat :=
  (bytes.getD 0 0 % 256) * 2 ^ 24 + (bytes.getD 1 0 % 256) * 2 ^ 16
    + (bytes.getD 2 0 % 256) * 2 ^ 8 + bytes.getD 3 0 % 256

/-- The reading part of `readChunk` on a device that is not at its end: the device afterwards
and the bytes handed to `png_process_data`, or `none` when `readChunk` returns `false` before
handing anything over. -/
def readChunkData (d : QIODevice) (length : Nat) : QIODevice × Option (List Nat) :=
  if length = 0 then
    let sizeBytes := (d.read 4).1
    let d1 := (d.read 4).2
    if sizeBytes.length < 4 then (d1, none)
    else
      let chunkLen := toU32 (qFromBigEndian32 sizeBytes + 8)
      let data := sizeBytes ++ (d1.read chunkLen).1
      let d2 := (d1.read chunkLen).2
      if toInt32 chunkLen > (data.length : Int) - 4 then (d2, none) else (d2, some data)
  else
    let data := (d.read length).1
    let d1 := (d.read length).2
    if (data.length : Int) < toInt32 length then (d1, none) else (d1, some data)

/-- The behaviour of libpng's progressive reader, which is not under `src/`: its initial
state after `png_create_read_struct` / `png_set_progressive_read_fn`, the callbacks one call
of `png_process_data` makes (`none` when it reports an error through `longjmp`), and
`png_progressive_combine_row`. -/
structure LibPng (σ : Type) where
  init : σ
  process : σ → List Nat → Option (σ × List PngEvent)
  combine : List Nat → List Nat → List Nat

/-- The state of one decode: the device, libpng's state and the `ApngContext`. -/
structure DecodeState (σ : Type) where
  device : Option QIODevice
  png : σ
  ctx : ApngContext

/-- How a call that may run into libpng's `longjmp` ends: with the jump (the device is where
the last read left it), or by returning. -/
inductive Outcome (σ : Type) where
  | jumped (device : Option QIODevice)
  | returned (result : Bool) (st : DecodeState σ)

/-- The function `readChunk`. -/
def readChunk {σ : Type} (png : LibPng σ) (st : DecodeState σ) (length : Nat) : Outcome σ :=
  match st.device with
  | none => Outcome.returned false st
  | some d =>
    if d.atEnd then Outcome.returned false st
    else
      match readChunkData d length with
      | (d1, none) => Outcome.returned false { st with device := some d1 }
      | (d1, some data) =>
        match png.process st.png data with
        | none => Outcome.jumped (some d1)
        | some (s, events) =>
          Outcome.returned (!d1.atEnd)
            { device := some d1, png := s, ctx := runEvents png.combine st.ctx events }

/-- The device is the null pointer or at its end. -/
def deviceAtEnd (device : Option QIODevice) : Bool :=
  match device with
  | none => true
  | some d => d.atEnd

/-- The chunk loop of `ensureParsed`, at most `fuel` iterations: the flag `done` and the
state when the loop is left, or the jump. -/
def parseLoop {σ : Type} (png : LibPng σ) : Nat → DecodeState σ → Outcome σ
  | 0, st => Outcome.returned false st
  | fuel + 1, st =>
    if deviceAtEnd st.device then Outcome.returned false st
    else
      match readChunk png st 0 with
      | Outcome.jumped dev => Outcome.jumped dev
      | Outcome.returned false st1 => Outcome.returned false st1
      | Outcome.returned true st1 =>
        if st1.ctx.isAnimated ∧ toU32 st1.ctx.frames.length = st1.ctx.frameCount then
          Outcome.returned true st1
        else parseLoop png fuel st1

/-- The number of bytes left on the device of a decode state. -/
def bytesLeft (device : Option QIODevice) : Nat :=
  match device with
  | none => 0
  | some d => d.remaining

/-- What `ensureParsed(device, loopCount, frames, delays)` leaves behind: the returned flag,
the device and the three output arguments. -/
structure ParseResult where
  ok : Bool
  device : Option QIODevice
  out : DecodeOutput
deriving DecidableEq, Repr

/-- The block of `ensureParsed` that feeds the stream to libpng: the signature through
`readChunk(&ctx, 8)`, whose result is ignored, then the chunk loop. Each turn of the loop
consumes at least four bytes, so the bytes left on the device bound the number of turns
(theorem `parseLoop_fuel`). -/
def parseAll {σ : Type} (png : LibPng σ) (device : Option QIODevice) : Outcome σ :=
  match readChunk png { device := device, png := png.init, ctx := {} } 8 with
  | Outcome.jumped dev => Outcome.jumped dev
  | Outcome.returned _ st1 => parseLoop png (bytesLeft st1.device + 1) st1

/-- The static function `APNGHandler::ensureParsed(device, loopCount, frames, delays)`. The
libpng structs are taken to be created; a `longjmp` returns `false` with the outputs
untouched. The clean-up at the end (`png_destroy_read_struct`, `freeFrameBuf`) touches
neither the outputs nor the device. -/
def ensureParsed {σ : Type} (png : LibPng σ) (device : Option QIODevice) (out : DecodeOutput) :
    ParseResult :=
  if (canRead device).1 then
    match parseAll png (canRead device).2 with
    | Outcome.jumped dev => { ok := false, device := dev, out := out }
    | Outcome.returned done st2 =>
      { ok := (ensureParsedFinish st2.ctx done out).1, device := st2.device,
        out := (ensureParsedFinish st2.ctx done out).2 }
  else { ok := false, device := (canRead device).2, out := out }

/-! ## The handler -/

/-- The value `QVector::at(i)`: `none` stands for the access out of range. -/
def vectorAt {α : Type} (v : List α) (i : Int) : Option α :=
  if 0 ≤ i ∧ i < v.length then v[i.toNat]? else none

/-- The members of `APNGHandler`, with the device of the `QImageIOHandler` base. -/
structure APNGHandler where
  device : Option QIODevice := none
  m_parsed : Bool := false
  m_frames : List QImage := []
  m_delays : List Int := []
  m_loopCount : Int := 0
  m_currentFrame : Int := 0
deriving DecidableEq, Repr

/-- The values of `QVariant` the handler returns from `option`. -/
inductive QVariant where
  | invalid
  | bool (b : Bool)
  | size (width height : Nat)
deriving DecidableEq, Repr

/-- The options of `QImageIOHandler::ImageOption` the handler distinguishes. -/
inductive ImageOption where
  | Animation
  | Size
  | other
deriving DecidableEq, Repr

namespace APNGHandler

/-- The method `APNGHandler::ensureParsed() const`: the flag it returns and the handler
afterwards. The flag `m_parsed` is set before the decode runs. -/
def ensureParsed {σ : Type} (png : LibPng σ) (h : APNGHandler) : Bool × APNGHandler :=
  if h.m_parsed then (true, h)
  else
    let r := QApng.ensureParsed png h.device
      { loopCount := h.m_loopCount, frames := h.m_frames, delays := h.m_delays }
    (r.ok,
      { h with
        m_parsed := true, device := r.device, m_loopCount := r.out.loopCount,
        m_frames := r.out.frames, m_delays := r.out.delays })

/-- The method `APNGHandler::read`: the flag, the image written to `*image` if any, and the
handler afterwards; `none` stands for an access out of range. -/
def read {σ : Type} (png : LibPng σ) (h : APNGHandler) :
    Option (Bool × Option QImage × APNGHandler) :=
  let h1 := (ensureParsed png h).2
  if (ensureParsed png h).1 then
    if h1.m_frames.isEmpty then some (false, none, h1)
    else
      let cur : Int :=
        if h1.m_currentFrame < 0 ∨ h1.m_currentFrame ≥ h1.m_frames.length then 0
        else h1.m_currentFrame
      match vectorAt h1.m_frames cur with
      | some img => some (true, some img, { h1 with m_currentFrame := wrapInt32 (cur + 1) })
      | none => none
  else some (false, none, h1)

/-- The method `APNGHandler::currentImageNumber`. -/
def currentImageNumber {σ : Type} (png : LibPng σ) (h : APNGHandler) : Int × APNGHandler :=
  if (ensureParsed png h).1 then ((ensureParsed png h).2.m_currentFrame, (ensureParsed png h).2)
  else (0, (ensureParsed png h).2)

/-- The method `APNGHandler::imageCount`. -/
def imageCount {σ : Type} (png : LibPng σ) (h : APNGHandler) : Int × APNGHandler :=
  if (ensureParsed png h).1 then
    (((ensureParsed png h).2.m_frames.length : Nat), (ensureParsed png h).2)
  else (0, (ensureParsed png h).2)

/-- The method `APNGHandler::jumpToNextImage`. -/
def jumpToNextImage {σ : Type} (png : LibPng σ) (h : APNGHandler) : Bool × APNGHandler :=
  let h1 := (ensureParsed png h).2
  if (ensureParsed png h).1 then
    (decide (wrapInt32 (h1.m_currentFrame + 1) < h1.m_frames.length),
      { h1 with m_currentFrame := wrapInt32 (h1.m_currentFrame + 1) })
  else (false, h1)

/-- The method `APNGHandler::jumpToImage`. -/
def jumpToImage {σ : Type} (png : LibPng σ) (h : APNGHandler) (imageNumber : Int) :
    Bool × APNGHandler :=
  let h1 := (ensureParsed png h).2
  if (ensureParsed png h).1 = false ∨ imageNumber < 0 then (false, h1)
  else (decide (imageNumber < h1.m_frames.length), { h1 with m_currentFrame := imageNumber })

/-- The method `APNGHandler::nextImageDelay`; `none` stands for an access out of range. -/
def nextImageDelay {σ : Type} (png : LibPng σ) (h : APNGHandler) : Option (Int × APNGHandler) :=
  let h1 := (ensureParsed png h).2
  if (ensureParsed png h).1 then
    if h1.m_currentFrame ≤ 0 ∨ h1.m_currentFrame ≥ h1.m_frames.length then
      (vectorAt h1.m_delays 0).map (fun d => (d, h1))
    else (vectorAt h1.m_delays (h1.m_currentFrame - 1)).map (fun d => (d, h1))
  else some (0, h1)

/-- The method `APNGHandler::loopCount`. -/
def loopCount {σ : Type} (png : LibPng σ) (h : APNGHandler) : Int × APNGHandler :=
  if (ensureParsed png h).1 then ((ensureParsed png h).2.m_loopCount, (ensureParsed png h).2)
  else (0, (ensureParsed png h).2)

/-- The method `APNGHandler::supportsOption`. -/
def supportsOption (option : ImageOption) : Bool :=
  match option with
  | ImageOption.Animation => true
  | ImageOption.Size => true
  | ImageOption.other => false

/-- The method `APNGHandler::option`; `none` stands for an access out of range. -/
def option {σ : Type} (png : LibPng σ) (h : APNGHandler) (opt : ImageOption) :
    Option (QVariant × APNGHandler) :=
  let h1 := (ensureParsed png h).2
  if (ensureParsed png h).1 then
    match opt with
    | ImageOption.Animation => some (QVariant.bool (!h1.m_frames.isEmpty), h1)
    | ImageOption.Size =>
      if h1.m_frames.isEmpty then some (QVariant.invalid, h1)
      else (h1.m_frames.head?).map (fun img => (QVariant.size img.width img.height, h1))
    | ImageOption.other => some (QVariant.invalid, h1)
  else some (QVariant.invalid, h1)

end APNGHandler


/-! ## Sample byte sources and handlers -/

/-- The flag a call returned, `none` after a `longjmp`. -/
def Outcome.result {σ : Type} : Outcome σ → Option Bool
  | Outcome.jumped _ => none
  | Outcome.returned r _ => some r

/-- The device a call left behind. -/
def Outcome.device {σ : Type} : Outcome σ → Option QIODevice
  | Outcome.jumped dev => dev
  | Outcome.returned _ st => st.device

/-- A libpng that accepts every byte and makes no callback. -/
def idlePng : LibPng Unit :=
  { init := (), process := fun _ _ => some ((), []), combine := replaceRow }

/-- A stream that starts with the PNG signature, continues with a chunk length field holding
the bytes `b0 b1 b2 b3` and ends with `n` zero bytes; the position is `pos`. -/
def lengthStream (b0 b1 b2 b3 n pos : Nat) : QIODevice :=
  { data := pngSignature ++ [b0, b1, b2, b3] ++ List.replicate n 0, pos := pos }

/-- A readable byte source that is no PNG stream. -/
def textDevice : QIODevice := { data := [104, 101, 108, 108, 111] }


/-- A `2 × 1` frame at offset `(0, 1)`: a fully transparent pixel followed by an opaque green
one, bytes `B, G, R, A`. -/
def twoDots : FrameBuf :=
  { x := 0, y := 1, width := 2, height := 1, rowbytes := 8, p := [9, 9, 9, 0, 0, 255, 0, 255],
    blend_op := PNG_BLEND_OP_OVER }


/-! ## Invariants of a decode -/

/-- The context a call returned with satisfies `P`; nothing is asked after a `longjmp`. -/
def Outcome.ctxSatisfies {σ : Type} (P : ApngContext → Prop) : Outcome σ → Prop
  | Outcome.jumped _ => True
  | Outcome.returned _ st => P st.ctx

/-- The event is the header-complete callback. -/
def PngEvent.isInfo : PngEvent → Bool
  | PngEvent.info _ => true
  | _ => false

/-- The canvas and every emitted frame of the context have the dimensions `W × H`. -/
def SizeInv (W H : Nat) (ctx : ApngContext) : Prop :=
  (ctx.lastImage.width = W ∧ ctx.lastImage.height = H) ∧
    ∀ fr ∈ ctx.frames, fr.width = W ∧ fr.height = H

/-- The events libpng can report: a header-complete that announces an animation announces at
least one frame (`png_set_acTL` ignores an `acTL` chunk with `num_frames` zero). -/
def announcesFrames : PngEvent → Prop
  | PngEvent.info i => ∀ num_frames plays, i.acTL = some (num_frames, plays) → toU32 num_frames ≠ 0
  | _ => True

/-- Every callback libpng makes satisfies `Allowed`. -/
def LibPng.reportsOnly {σ : Type} (png : LibPng σ) (Allowed : PngEvent → Prop) : Prop :=
  ∀ s bytes s1 events, png.process s bytes = some (s1, events) → ∀ e ∈ events, Allowed e


/-- The call returned `true` only in a state that satisfies `Q`. -/
def Outcome.doneSatisfies {σ : Type} (Q : DecodeState σ → Prop) : Outcome σ → Prop
  | Outcome.returned true st => Q st
  | _ => True

/-- A libpng that stays silent on the signature and, on the next call of `png_process_data`,
reports the callbacks of a whole non-animated `2 × 1` image; its state counts the calls. -/
def plainPng : LibPng Nat :=
  { init := 0,
    process := fun s _ =>
      if s = 1 then
        some (2, [PngEvent.info plainInfo, PngEvent.row 0 [0, 0, 255, 255, 255, 0, 0, 255],
          PngEvent.streamEnd])
      else some (s + 1, []),
    combine := replaceRow }


/-- The callbacks of a two-frame animation after header-complete: the first frame ends, a
`1 × 1` sub-rectangle at `(1, 1)` is announced, and the second frame ends. -/
def subRectEvents : List PngEvent :=
  [PngEvent.frameEnd 0,
    PngEvent.frameInfo { x_offset := 1, y_offset := 1, width := 1, height := 1, blend_op := 1 },
    PngEvent.frameEnd 1]

/-- A handler that has decoded two frames with the delays 10 and 20; the cursor is `cursor`. -/
def twoFrames (cursor : Int) : APNGHandler :=
  { m_parsed := true, m_frames := [redCanvas, canvas1 ⟨0, 0, 0, 0⟩], m_delays := [10, 20],
    m_currentFrame := cursor }

/-- A fresh handler over a byte source that is no PNG stream. -/
def textHandler : APNGHandler := { device := some textDevice }

/-- The cursor operations of the handler. -/
inductive CursorOp where
  | read
  | jumpToImage (imageNumber : Int)
  | jumpToNextImage
deriving DecidableEq, Repr

/-- One cursor operation: the flag it returns and the handler afterwards; `none` stands for
an access out of range. -/
def applyOp {σ : Type} (png : LibPng σ) (h : APNGHandler) : CursorOp → Option (Bool × APNGHandler)
  | CursorOp.read => (APNGHandler.read png h).map (fun r => (r.1, r.2.2))
  | CursorOp.jumpToImage n => some (APNGHandler.jumpToImage png h n)
  | CursorOp.jumpToNextImage => some (APNGHandler.jumpToNextImage png h)

/-- The handler after a sequence of cursor operations; `none` stands for an access out of
range. -/
def runOps {σ : Type} (png : LibPng σ) (h : APNGHandler) : List CursorOp → Option APNGHandler
  | [] => some h
  | op :: rest =>
    match applyOp png h op with
    | none => none
    | some r => runOps png r.2 rest

/-- Every `jumpToImage` and `jumpToNextImage` of the sequence returned `true` (and no access
was out of range). -/
def jumpsSucceed {σ : Type} (png : LibPng σ) (h : APNGHandler) : List CursorOp → Bool
  | [] => true
  | op :: rest =>
    match applyOp png h op with
    | none => false
    | some r => (decide (op = CursorOp.read) || r.1) && jumpsSucceed png r.2 rest


end QApng

namespace QApng

/-! ## Basic facts about the Qt value types -/

theorem QImage.setPixelColor_width (img : QImage) (x y : Int) (c : QColor) :
    (img.setPixelColor x y c).width = img.width := by
  unfold QImage.setPixelColor
  split_ifs <;> rfl

theorem QImage.setPixelColor_height (img : QImage) (x y : Int) (c : QColor) :
    (img.setPixelColor x y c).height = img.height := by
  unfold QImage.setPixelColor
  split_ifs <;> rfl

theorem QImage.setPixelColor_WF {img : QImage} (h : img.WF) (x y : Int) (c : QColor) :
    (img.setPixelColor x y c).WF := by
  unfold QImage.setPixelColor
  split_ifs with h1 h2
  · obtain ⟨hw, hh, hl, hr⟩ := h
    refine ⟨hw, hh, ?_, ?_⟩
    · simpa using hl
    · intro line hline
      rcases List.mem_or_eq_of_mem_set hline with hm | rfl
      · exact hr line hm
      · simp only [List.length_set]
        rw [List.getD_eq_getElem?_getD]
        have hy : y.toNat < img.scanLines.length := by
          have := h1.2.2; omega
        rw [List.getElem?_eq_getElem hy]
        exact hr _ (List.getElem_mem _)
  · exact h
  · exact h

theorem getD_set_getD {α : Type} (rows : List (List α)) (i j i' j' : Nat) (v d : α)
    (hj : j < rows.length) (hi : i < (rows.getD j []).length) :
    ((rows.set j ((rows.getD j []).set i v)).getD j' []).getD i' d =
      if i' = i ∧ j' = j then v else (rows.getD j' []).getD i' d := by
  simp only [List.getD_eq_getElem?_getD, List.getElem?_set]
  by_cases hjj : j = j'
  · subst hjj
    by_cases hii : i = i'
    · subst hii
      simp only [List.getD_eq_getElem?_getD, List.getElem?_eq_getElem hj, Option.getD_some] at hi
      simp [hj, hi]
    · have hii' : ¬ i' = i := fun h => hii h.symm
      simp [hj, hii, hii']
  · have hjj' : ¬ j' = j := fun h => hjj h.symm
    simp [hjj, hjj']

theorem QImage.pixelColor_setPixelColor {img : QImage} (h : img.WF) (x y : Int) (c : QColor)
    (x' y' : Int) :
    (img.setPixelColor x y c).pixelColor x' y' =
      if (x' = x ∧ y' = y) ∧ img.inRange x y ∧ c.valid = true then QColor.fromRgba c.rgba
      else img.pixelColor x' y' := by
  obtain ⟨hw, hh, hl, hr⟩ := h
  by_cases hin : img.inRange x y
  · by_cases hv : c.valid = true
    · have hy : y.toNat < img.scanLines.length := by
        have := hin.2.2; omega
      have hline : (img.scanLines.getD y.toNat []).length = img.width := by
        rw [List.getD_eq_getElem?_getD, List.getElem?_eq_getElem hy]
        exact hr _ (List.getElem_mem _)
      have hx : x.toNat < (img.scanLines.getD y.toNat []).length := by
        have := hin.1; have := hin.2.1; omega
      have hset : img.setPixelColor x y c = QImage.mk img.width img.height
          (img.scanLines.set y.toNat ((img.scanLines.getD y.toNat []).set x.toNat c.rgba)) := by
        unfold QImage.setPixelColor
        rw [if_pos hin, if_pos hv]
      rw [hset]
      unfold QImage.pixelColor
      by_cases hin' : img.inRange x' y'
      · have hin2 : QImage.inRange (QImage.mk img.width img.height
          (img.scanLines.set y.toNat ((img.scanLines.getD y.toNat []).set x.toNat c.rgba)))
            x' y' := hin'
        rw [if_pos hin2, if_pos hin', getD_set_getD _ _ _ _ _ _ _ hy hx]
        have hiff : (x'.toNat = x.toNat ∧ y'.toNat = y.toNat) ↔ (x' = x ∧ y' = y) := by
          have h1 := hin.1; have h2 := hin.2.2.1; have h3 := hin'.1; have h4 := hin'.2.2.1
          constructor
          · rintro ⟨ha, hb⟩; constructor <;> omega
          · rintro ⟨ha, hb⟩; subst ha; subst hb; exact ⟨rfl, rfl⟩
        by_cases hxy : x' = x ∧ y' = y
        · rw [if_pos (hiff.2 hxy), if_pos ⟨hxy, hin, hv⟩]
        · rw [if_neg (fun hc => hxy (hiff.1 hc)), if_neg (fun hc => hxy hc.1)]
      · have hin2 : ¬ QImage.inRange (QImage.mk img.width img.height
          (img.scanLines.set y.toNat ((img.scanLines.getD y.toNat []).set x.toNat c.rgba)))
            x' y' := hin'
        rw [if_neg hin2, if_neg hin']
        have hne : ¬ ((x' = x ∧ y' = y) ∧ img.inRange x y ∧ c.valid = true) := by
          rintro ⟨⟨rfl, rfl⟩, _, _⟩
          exact hin' hin
        rw [if_neg hne]
    · simp [QImage.setPixelColor, hin, hv]
  · simp [QImage.setPixelColor, hin]

/-! ## Loops that write one pixel per iteration -/

theorem foldl_localStep {ι : Type} {step : QImage → ι → QImage} {T : ι → Int → Int → Prop}
    (hs : LocalStep step T) :
    LocalStep (fun img (l : List ι) => l.foldl step img) (fun l X Y => ∃ i ∈ l, T i X Y) := by
  intro img l
  induction l generalizing img with
  | nil => simp
  | cons a t ih =>
    obtain ⟨hw, hh, hrest⟩ := hs img a
    obtain ⟨hw2, hh2, hrest2⟩ := ih (step img a)
    simp only [List.foldl_cons]
    refine ⟨hw2.trans hw, hh2.trans hh, fun hwf => ?_⟩
    obtain ⟨hwf1, hpix1⟩ := hrest hwf
    obtain ⟨hwf2, hpix2⟩ := hrest2 hwf1
    refine ⟨hwf2, fun X Y hT => ?_⟩
    rw [hpix2 X Y (fun ⟨i, hi, hTi⟩ => hT ⟨i, List.mem_cons_of_mem _ hi, hTi⟩)]
    exact hpix1 X Y (fun hTa => hT ⟨a, List.mem_cons_self _ _, hTa⟩)

theorem forRange_localStep {ι : Type} {body : QImage → Nat → ι → QImage}
    {T : Nat → ι → Int → Int → Prop}
    (hs : ∀ j, LocalStep (fun img i => body img i j) (fun i => T i j)) (n : Nat) :
    LocalStep (fun img j => forRange n (fun img i => body img i j) img)
      (fun j X Y => ∃ i, i < n ∧ T i j X Y) := by
  intro img j
  have h := foldl_localStep (hs j) img (List.range n)
  simp only [List.mem_range] at h
  exact h

theorem foldl_writer {ι : Type} {step : QImage → ι → QImage} {T : ι → Int → Int → Prop}
    (hs : LocalStep step T) (l : List ι) (hnd : l.Nodup) (i0 : ι) (hi0 : i0 ∈ l) (X Y : Int)
    (hT : ∀ i ∈ l, T i X Y → i = i0) (g : QColor → QColor)
    (img : QImage) (hwf : img.WF)
    (hg : ∀ im : QImage, im.WF → im.width = img.width → im.height = img.height →
      (step im i0).pixelColor X Y = g (im.pixelColor X Y)) :
    (l.foldl step img).pixelColor X Y = g (img.pixelColor X Y) := by
  induction l using List.reverseRecOn with
  | nil => simp at hi0
  | append_singleton t a ih =>
    rw [List.foldl_append, List.foldl_cons, List.foldl_nil]
    have hnd2 : t.Nodup ∧ a ∉ t := by
      rw [List.nodup_append] at hnd
      refine ⟨hnd.1, fun hmem => ?_⟩
      exact hnd.2.2 hmem (List.mem_singleton_self a)
    obtain ⟨hwt, hht, hfold⟩ := foldl_localStep hs img t
    obtain ⟨hwft, hpixt⟩ := hfold hwf
    by_cases ha : a = i0
    · subst ha
      rw [hg _ hwft hwt hht]
      congr 1
      apply hpixt
      rintro ⟨i, hi, hTi⟩
      have : i = a := hT i (by simp [hi]) hTi
      subst this
      exact hnd2.2 hi
    · have hTa : ¬ T a X Y := fun hc => ha (hT a (by simp) hc)
      obtain ⟨_, _, hstep⟩ := hs (t.foldl step img) a
      rw [(hstep hwft).2 X Y hTa]
      have hi0t : i0 ∈ t := by
        rcases List.mem_append.1 hi0 with h | h
        · exact h
        · exact absurd (List.mem_singleton.1 h).symm ha
      exact ih hnd2.1 hi0t (fun i hi => hT i (List.mem_append_left _ hi))

theorem forRange_writer {step : QImage → Nat → QImage} {T : Nat → Int → Int → Prop}
    (hs : LocalStep step T) (n i0 : Nat) (hi0 : i0 < n) (X Y : Int)
    (hT : ∀ i, i < n → T i X Y → i = i0) (g : QColor → QColor)
    (img : QImage) (hwf : img.WF)
    (hg : ∀ im : QImage, im.WF → im.width = img.width → im.height = img.height →
      (step im i0).pixelColor X Y = g (im.pixelColor X Y)) :
    (forRange n step img).pixelColor X Y = g (img.pixelColor X Y) :=
  foldl_writer hs (List.range n) (List.nodup_range n) i0 (List.mem_range.2 hi0) X Y
    (fun i hi => hT i (List.mem_range.1 hi)) g img hwf hg

/-! ## Canvas coordinates -/

theorem canvasCoord_eq {i off : Nat} (h : i + off < 2 ^ 31) :
    canvasCoord i off = ((i + off : Nat) : Int) := by
  unfold canvasCoord toInt32 toU32
  have h1 : (i + off) % 2 ^ 32 = i + off := Nat.mod_eq_of_lt (by omega)
  rw [h1, h1, if_pos h]

theorem setPixelColor_localStep (cx cy : Nat → Int) (col : QImage → Nat → QColor) :
    LocalStep (fun img i => img.setPixelColor (cx i) (cy i) (col img i))
      (fun i X Y => X = cx i ∧ Y = cy i) := by
  intro img i
  refine ⟨QImage.setPixelColor_width _ _ _ _, QImage.setPixelColor_height _ _ _ _,
    fun hwf => ⟨QImage.setPixelColor_WF hwf _ _ _, fun X Y hT => ?_⟩⟩
  rw [QImage.pixelColor_setPixelColor hwf, if_neg (fun hc => hT hc.1)]

/-! ## The two-level pixel loops of the handler -/

/-- The double loop keeps the shape of the image and touches only the canvas coordinates of
its iterations. -/
theorem pixelLoop_frame (body : QImage → Nat → Nat → QImage) (fx fy w h : Nat)
    (hs : ∀ y, LocalStep (fun img x => body img x y)
      (fun x X Y => X = canvasCoord x fx ∧ Y = canvasCoord y fy))
    (img : QImage) :
    (forRange h (fun img y => forRange w (fun img x => body img x y) img) img).width = img.width ∧
    (forRange h (fun img y => forRange w (fun img x => body img x y) img) img).height
      = img.height ∧
    (img.WF →
      (forRange h (fun img y => forRange w (fun img x => body img x y) img) img).WF ∧
      ∀ X Y, (¬ ∃ y, y < h ∧ ∃ x, x < w ∧ X = canvasCoord x fx ∧ Y = canvasCoord y fy) →
        (forRange h (fun img y => forRange w (fun img x => body img x y) img) img).pixelColor X Y
          = img.pixelColor X Y) := by
  have h1 := @forRange_localStep _ body _ hs w
  have h2 := foldl_localStep h1 img (List.range h)
  simp only [List.mem_range] at h2
  exact h2

/-- The pixel written by iteration `(x0, y0)` of the double loop is the one that iteration
computes from the initial pixel, when the loop coordinates do not wrap. -/
theorem pixelLoop_writer (body : QImage → Nat → Nat → QImage) (fx fy w h : Nat)
    (hs : ∀ y, LocalStep (fun img x => body img x y)
      (fun x X Y => X = canvasCoord x fx ∧ Y = canvasCoord y fy))
    (hbx : fx + w ≤ 2 ^ 31) (hby : fy + h ≤ 2 ^ 31)
    (x0 y0 : Nat) (hx0 : x0 < w) (hy0 : y0 < h) (g : QColor → QColor)
    (img : QImage) (hwf : img.WF)
    (hg : ∀ im : QImage, im.WF → im.width = img.width → im.height = img.height →
      (body im x0 y0).pixelColor (canvasCoord x0 fx) (canvasCoord y0 fy) =
        g (im.pixelColor (canvasCoord x0 fx) (canvasCoord y0 fy))) :
    (forRange h (fun img y => forRange w (fun img x => body img x y) img) img).pixelColor
        (canvasCoord x0 fx) (canvasCoord y0 fy) =
      g (img.pixelColor (canvasCoord x0 fx) (canvasCoord y0 fy)) := by
  refine forRange_writer (@forRange_localStep _ body _ hs w) h y0 hy0 _ _ ?_ g img hwf ?_
  · rintro y hy ⟨x, hx, -, hY⟩
    rw [canvasCoord_eq (by omega), canvasCoord_eq (by omega)] at hY
    omega
  · intro im hwfi hwi hhi
    refine forRange_writer (hs y0) w x0 hx0 _ _ ?_ g im hwfi ?_
    · rintro x hx ⟨hX, -⟩
      rw [canvasCoord_eq (by omega), canvasCoord_eq (by omega)] at hX
      omega
    · intro im2 hwf2 hw2 hh2
      exact hg im2 hwf2 (hw2.trans hwi) (hh2.trans hhi)

/-! ## The colour read from the frame buffer -/

theorem rowByte_lt (f : FrameBuf) (y i : Nat) : rowByte f y i < 256 :=
  Nat.mod_lt _ (by decide)

theorem framePixel_eq (f : FrameBuf) (x y : Nat) :
    framePixel f x y =
      { valid := true,
        red := rowByte f y (toU32 (x * 4) + 2),
        green := rowByte f y (toU32 (x * 4) + 1),
        blue := rowByte f y (toU32 (x * 4) + 0),
        alpha := rowByte f y (toU32 (x * 4) + 3) } := by
  have hb := rowByte_lt f y (toU32 (x * 4) + 0)
  have hcond : (0 : Int) ≤ ((0 : Nat) : Int) ∧ (((0 : Nat) : Int)) ≤ 255 ∧
      (0 : Int) ≤ ((0 : Nat) : Int) ∧ (((0 : Nat) : Int)) ≤ 255 ∧
      (0 : Int) ≤ (rowByte f y (toU32 (x * 4) + 0) : Int) ∧
      (rowByte f y (toU32 (x * 4) + 0) : Int) ≤ 255 ∧
      (0 : Int) ≤ ((255 : Nat) : Int) ∧ ((255 : Nat) : Int) ≤ 255 := by
    refine ⟨by decide, by decide, by decide, by decide, by omega, by omega, by decide, by decide⟩
  simp only [framePixel, QColor.setBlue, QColor.invalid, QColor.setRgb, if_pos hcond,
    QColor.setGreen, QColor.setRed, QColor.setAlpha, Bool.false_eq_true, if_false, if_true,
    Int.toNat_ofNat]

theorem framePixel_valid (f : FrameBuf) (x y : Nat) : (framePixel f x y).valid = true := by
  rw [framePixel_eq]

theorem fromRgba_rgba {c : QColor} (h : c.valid = true) : QColor.fromRgba c.rgba = c := by
  cases c
  simp only [QColor.fromRgba, QColor.rgba] at *
  simp [h]

theorem covers_iff (f : FrameBuf) (hbx : f.x + f.width ≤ 2 ^ 31) (hby : f.y + f.height ≤ 2 ^ 31)
    (X Y : Int) :
    (∃ y, y < f.height ∧ ∃ x, x < f.width ∧ X = canvasCoord x f.x ∧ Y = canvasCoord y f.y) ↔
      f.covers X Y := by
  unfold FrameBuf.covers
  constructor
  · rintro ⟨y, hy, x, hx, hX, hY⟩
    rw [canvasCoord_eq (by omega)] at hX hY
    omega
  · rintro ⟨h1, h2, h3, h4⟩
    refine ⟨(Y - f.y).toNat, by omega, (X - f.x).toNat, by omega, ?_, ?_⟩
    · rw [canvasCoord_eq (by omega)]; omega
    · rw [canvasCoord_eq (by omega)]; omega

/-! ## The three pixel loops: shape and pixels -/

theorem id_localStep (T : Nat → Int → Int → Prop) :
    LocalStep (fun (img : QImage) (_ : Nat) => img) T :=
  fun _ _ => ⟨rfl, rfl, fun hwf => ⟨hwf, fun _ _ _ => rfl⟩⟩

theorem copyBody_localStep (f : FrameBuf) (y : Nat) :
    LocalStep (fun img x => img.setPixelColor (toInt32 (toU32 (x + f.x)))
        (toInt32 (toU32 (y + f.y))) (framePixel f x y))
      (fun x X Y => X = canvasCoord x f.x ∧ Y = canvasCoord y f.y) :=
  setPixelColor_localStep (fun x => canvasCoord x f.x) (fun _ => canvasCoord y f.y)
    (fun _ x => framePixel f x y)

theorem clearBody_localStep (f : FrameBuf) (y : Nat) :
    LocalStep (fun img x => img.setPixelColor (toInt32 (toU32 (x + f.x)))
        (toInt32 (toU32 (y + f.y))) QColor.transparent)
      (fun x X Y => X = canvasCoord x f.x ∧ Y = canvasCoord y f.y) :=
  setPixelColor_localStep (fun x => canvasCoord x f.x) (fun _ => canvasCoord y f.y)
    (fun _ _ => QColor.transparent)

theorem blendBody_localStep (f : FrameBuf) (y : Nat) :
    LocalStep (fun img x => blendPixel img f x y)
      (fun x X Y => X = canvasCoord x f.x ∧ Y = canvasCoord y f.y) := by
  intro img x
  have hset : ∀ c : QColor,
      (img.setPixelColor (canvasCoord x f.x) (canvasCoord y f.y) c).width = img.width ∧
      (img.setPixelColor (canvasCoord x f.x) (canvasCoord y f.y) c).height = img.height ∧
      (img.WF → (img.setPixelColor (canvasCoord x f.x) (canvasCoord y f.y) c).WF ∧
        ∀ X Y, ¬ (X = canvasCoord x f.x ∧ Y = canvasCoord y f.y) →
          (img.setPixelColor (canvasCoord x f.x) (canvasCoord y f.y) c).pixelColor X Y
            = img.pixelColor X Y) := fun c =>
    setPixelColor_localStep (fun x => canvasCoord x f.x) (fun _ => canvasCoord y f.y)
      (fun _ _ => c) img x
  have hid := id_localStep (fun x X Y => X = canvasCoord x f.x ∧ Y = canvasCoord y f.y) img x
  show (blendPixel img f x y).width = _ ∧ (blendPixel img f x y).height = _ ∧ _
  unfold blendPixel
  simp only []
  split_ifs with h1 h2
  · exact hset _
  · cases hbc : blendColor (framePixel f x y)
        (img.pixelColor (toInt32 (toU32 (x + f.x))) (toInt32 (toU32 (y + f.y)))) with
    | none => exact hid
    | some c => exact hset c
  · exact hid

/-- The function `copyFrameToImage` keeps the dimensions and the shape of the image. -/
theorem copyFrameToImage_shape (dest : QImage) (f : FrameBuf) (b : Bool) :
    (copyFrameToImage dest f b).width = dest.width ∧
    (copyFrameToImage dest f b).height = dest.height ∧
    (dest.WF → (copyFrameToImage dest f b).WF) := by
  obtain ⟨h1, h2, h3⟩ := pixelLoop_frame _ f.x f.y f.width f.height (copyBody_localStep f) dest
  exact ⟨h1, h2, fun hwf => (h3 hwf).1⟩

/-- The function `blendFrame` keeps the dimensions and the shape of the image. -/
theorem blendFrame_shape (dest : QImage) (f : FrameBuf) :
    (blendFrame dest f).width = dest.width ∧
    (blendFrame dest f).height = dest.height ∧
    (dest.WF → (blendFrame dest f).WF) := by
  obtain ⟨h1, h2, h3⟩ := pixelLoop_frame _ f.x f.y f.width f.height (blendBody_localStep f) dest
  exact ⟨h1, h2, fun hwf => (h3 hwf).1⟩

/-- The disposal loop keeps the dimensions and the shape of the image. -/
theorem clearRegion_shape (img : QImage) (f : FrameBuf) :
    (clearRegion img f).width = img.width ∧
    (clearRegion img f).height = img.height ∧
    (img.WF → (clearRegion img f).WF) := by
  obtain ⟨h1, h2, h3⟩ := pixelLoop_frame _ f.x f.y f.width f.height (clearBody_localStep f) img
  exact ⟨h1, h2, fun hwf => (h3 hwf).1⟩

/-- The composition step keeps the dimensions and the shape of the image. -/
theorem composeFrame_shape (img : QImage) (f : FrameBuf) :
    (composeFrame img f).width = img.width ∧
    (composeFrame img f).height = img.height ∧
    (img.WF → (composeFrame img f).WF) := by
  unfold composeFrame
  split_ifs
  · exact blendFrame_shape img f
  · exact copyFrameToImage_shape img f true

theorem inBounds_lt {f : FrameBuf} {img : QImage} (hwf : img.WF) (hb : f.inBounds img) :
    f.x + f.width ≤ 2 ^ 31 ∧ f.y + f.height ≤ 2 ^ 31 := by
  obtain ⟨hw, hh, -, -⟩ := hwf
  obtain ⟨h1, h2⟩ := hb
  omega

/-- A loop whose body stores the valid colour `col x y` at the canvas coordinate of `(x, y)`:
inside the region the pixels are the stored colours, outside they are unchanged. -/
theorem storeLoop_pixels (f : FrameBuf) (col : Nat → Nat → QColor)
    (hv : ∀ x y, (col x y).valid = true) (img : QImage) (hwf : img.WF) (hb : f.inBounds img) :
    (∀ x y, x < f.width → y < f.height →
      (forRange f.height (fun img y => forRange f.width (fun img x =>
        img.setPixelColor (toInt32 (toU32 (x + f.x))) (toInt32 (toU32 (y + f.y))) (col x y))
          img) img).pixelColor ((x + f.x : Nat) : Int) ((y + f.y : Nat) : Int) = col x y) ∧
    (∀ X Y, ¬ f.covers X Y →
      (forRange f.height (fun img y => forRange f.width (fun img x =>
        img.setPixelColor (toInt32 (toU32 (x + f.x))) (toInt32 (toU32 (y + f.y))) (col x y))
          img) img).pixelColor X Y = img.pixelColor X Y) := by
  obtain ⟨hbx, hby⟩ := inBounds_lt hwf hb
  have hs : ∀ y, LocalStep (fun img x => img.setPixelColor (toInt32 (toU32 (x + f.x)))
        (toInt32 (toU32 (y + f.y))) (col x y))
      (fun x X Y => X = canvasCoord x f.x ∧ Y = canvasCoord y f.y) := fun y =>
    setPixelColor_localStep (fun x => canvasCoord x f.x) (fun _ => canvasCoord y f.y)
      (fun _ x => col x y)
  constructor
  · intro x y hx hy
    have hw := pixelLoop_writer _ f.x f.y f.width f.height hs hbx hby x y hx hy
      (fun _ => col x y) img hwf ?_
    · rw [canvasCoord_eq (by omega), canvasCoord_eq (by omega)] at hw
      exact hw
    · intro im hwfi hwi hhi
      show (im.setPixelColor (canvasCoord x f.x) (canvasCoord y f.y) (col x y)).pixelColor
        (canvasCoord x f.x) (canvasCoord y f.y) = col x y
      rw [QImage.pixelColor_setPixelColor hwfi, if_pos, fromRgba_rgba (hv x y)]
      refine ⟨⟨rfl, rfl⟩, ?_, hv x y⟩
      rw [canvasCoord_eq (by omega), canvasCoord_eq (by omega)]
      unfold QImage.inRange
      rw [hwi, hhi]
      obtain ⟨h1, h2⟩ := hb
      omega
  · intro X Y hc
    obtain ⟨-, -, h3⟩ := pixelLoop_frame _ f.x f.y f.width f.height hs img
    exact (h3 hwf).2 X Y (fun hex => hc ((covers_iff f hbx hby X Y).1 hex))

/-! ## C1: the arithmetic of `blendFrame` -/

theorem round_eq_of_bounds {q : ℚ} {n : Int} (h1 : (n : ℚ) ≤ q + 1 / 2) (h2 : q + 1 / 2 < n + 1) :
    round q = n := by
  rw [round_eq, Int.floor_eq_iff]
  exact ⟨h1, h2⟩

/-- C1 (code evaluated at the failing input): over an opaque red destination, `blendFrame`
turns the half-transparent green source `(0, 255, 0, 128)` into `(255, 255, 0, 255)`, while
the straight-alpha Porter–Duff result of the specification is `(127, 128, 0, 255)`; and over
the destination alpha `128` the source alpha `128` yields alpha `191`, not the rounded
`192`. -/
theorem blendFrame_over_not_porterDuff :
    (blendFrame (canvas1 ⟨255, 255, 0, 0⟩) (frame1 0 255 0 128 PNG_BLEND_OP_OVER 0)).pixelColor 0 0
        = { valid := true, red := 255, green := 255, blue := 0, alpha := 255 } ∧
    specOver (framePixel (frame1 0 255 0 128 PNG_BLEND_OP_OVER 0) 0 0)
        ((canvas1 ⟨255, 255, 0, 0⟩).pixelColor 0 0)
        = { valid := true, red := 127, green := 128, blue := 0, alpha := 255 } ∧
    ((blendFrame (canvas1 ⟨128, 0, 0, 0⟩) (frame1 0 0 0 128 PNG_BLEND_OP_OVER 0)).pixelColor 0 0).alpha
        = 191 ∧
    (specOver (framePixel (frame1 0 0 0 128 PNG_BLEND_OP_OVER 0) 0 0)
        ((canvas1 ⟨128, 0, 0, 0⟩).pixelColor 0 0)).alpha = 192 := by
  refine ⟨by decide, ?_, by decide, ?_⟩
  · have hs : framePixel (frame1 0 255 0 128 PNG_BLEND_OP_OVER 0) 0 0
        = { valid := true, red := 0, green := 255, blue := 0, alpha := 128 } := by decide
    have hd : (canvas1 ⟨255, 255, 0, 0⟩).pixelColor 0 0
        = { valid := true, red := 255, green := 0, blue := 0, alpha := 255 } := by decide
    rw [hs, hd]
    simp only [specOver, specRound255, specOverChannel, specOverAlpha]
    have e1 : round ((255 : ℚ) * ((((0 : ℕ) : ℚ) / 255 * (((128 : ℕ) : ℚ) / 255)
        + ((255 : ℕ) : ℚ) / 255 * (((255 : ℕ) : ℚ) / 255) * (1 - ((128 : ℕ) : ℚ) / 255))
        / (((128 : ℕ) : ℚ) / 255 + ((255 : ℕ) : ℚ) / 255 * (1 - ((128 : ℕ) : ℚ) / 255)))) = 127 := by
      apply round_eq_of_bounds <;> norm_num
    have e2 : round ((255 : ℚ) * ((((255 : ℕ) : ℚ) / 255 * (((128 : ℕ) : ℚ) / 255)
        + ((0 : ℕ) : ℚ) / 255 * (((255 : ℕ) : ℚ) / 255) * (1 - ((128 : ℕ) : ℚ) / 255))
        / (((128 : ℕ) : ℚ) / 255 + ((255 : ℕ) : ℚ) / 255 * (1 - ((128 : ℕ) : ℚ) / 255)))) = 128 := by
      apply round_eq_of_bounds <;> norm_num
    have e3 : round ((255 : ℚ) * ((((0 : ℕ) : ℚ) / 255 * (((128 : ℕ) : ℚ) / 255)
        + ((0 : ℕ) : ℚ) / 255 * (((255 : ℕ) : ℚ) / 255) * (1 - ((128 : ℕ) : ℚ) / 255))
        / (((128 : ℕ) : ℚ) / 255 + ((255 : ℕ) : ℚ) / 255 * (1 - ((128 : ℕ) : ℚ) / 255)))) = 0 := by
      apply round_eq_of_bounds <;> norm_num
    have e4 : round ((255 : ℚ) * (((128 : ℕ) : ℚ) / 255
        + ((255 : ℕ) : ℚ) / 255 * (1 - ((128 : ℕ) : ℚ) / 255))) = 255 := by
      apply round_eq_of_bounds <;> norm_num
    rw [e1, e2, e3, e4]
    rfl
  · have hs : framePixel (frame1 0 0 0 128 PNG_BLEND_OP_OVER 0) 0 0
        = { valid := true, red := 0, green := 0, blue := 0, alpha := 128 } := by decide
    have hd : (canvas1 ⟨128, 0, 0, 0⟩).pixelColor 0 0
        = { valid := true, red := 0, green := 0, blue := 0, alpha := 128 } := by decide
    rw [hs, hd]
    simp only [specOver, specRound255, specOverAlpha]
    have e4 : round ((255 : ℚ) * (((128 : ℕ) : ℚ) / 255
        + ((128 : ℕ) : ℚ) / 255 * (1 - ((128 : ℕ) : ℚ) / 255))) = 192 := by
      apply round_eq_of_bounds <;> norm_num
    rw [e4]
    rfl

/-! ## The frame-complete step -/

theorem copyFrameToImage_congr (img : QImage) (f g : FrameBuf) (b c : Bool)
    (hx : f.x = g.x) (hy : f.y = g.y) (hw : f.width = g.width) (hh : f.height = g.height)
    (hr : f.rowbytes = g.rowbytes) (hp : f.p = g.p) :
    copyFrameToImage img f b = copyFrameToImage img g c := by
  simp only [copyFrameToImage, framePixel, rowByte, hx, hy, hw, hh, hr, hp]

theorem composeFrame_source (img : QImage) (f : FrameBuf)
    (h : f.blend_op = PNG_BLEND_OP_SOURCE) : composeFrame img f = copyFrameToImage img f true := by
  unfold composeFrame
  rw [h, if_neg (show ¬ PNG_BLEND_OP_SOURCE = PNG_BLEND_OP_OVER by decide)]

theorem isHiddenFrame_of_firstDisplayed {ctx : ApngContext} {n : Nat}
    (h : isFirstDisplayed ctx n = true) : isHiddenFrame ctx n = false := by
  unfold isFirstDisplayed at h
  unfold isHiddenFrame
  cases hs : ctx.skipFirst <;> simp [hs] at h ⊢
  omega

theorem frameEndCallback_of_shown {ctx : ApngContext} {n : Nat}
    (hh : isHiddenFrame ctx n = false) :
    frameEndCallback ctx n =
      { ctx with
        curFrame := effectiveFrame ctx n,
        lastImage :=
          if (effectiveFrame ctx n).dispose_op = PNG_DISPOSE_OP_PREVIOUS then ctx.lastImage
          else if (effectiveFrame ctx n).dispose_op = PNG_DISPOSE_OP_BACKGROUND then
            clearRegion (composeFrame ctx.lastImage (effectiveFrame ctx n)) (effectiveFrame ctx n)
          else composeFrame ctx.lastImage (effectiveFrame ctx n),
        frames := ctx.frames ++ [composeFrame ctx.lastImage (effectiveFrame ctx n)],
        delays := ctx.delays ++
          [delayMs (effectiveFrame ctx n).delay_num (effectiveFrame ctx n).delay_den] } := by
  unfold frameEndCallback
  rw [hh]
  simp only [Bool.false_eq_true, if_false]
  congr 1
  split_ifs <;> rfl

/-- C2: on frame-complete of the first displayed frame the announced blend operation is
replaced by `SOURCE` and an announced dispose operation `PREVIOUS` by `BACKGROUND`: the whole
resulting state (emitted frame, canvas, delays) is the same for any announced blend operation
`b` (in particular `OVER`) as for `SOURCE`, the same for `PREVIOUS` as for `BACKGROUND`, and
the emitted frame is the `SOURCE` composition `copyFrameToImage` of the frame. -/
theorem frameEndCallback_firstDisplayed (ctx : ApngContext) (frame_num : Nat)
    (h : isFirstDisplayed ctx frame_num = true) (b d : Nat) :
    frameEndCallback (announce ctx b d) frame_num
      = frameEndCallback (announce ctx PNG_BLEND_OP_SOURCE d) frame_num ∧
    frameEndCallback (announce ctx b PNG_DISPOSE_OP_PREVIOUS) frame_num
      = frameEndCallback (announce ctx b PNG_DISPOSE_OP_BACKGROUND) frame_num ∧
    (frameEndCallback (announce ctx b d) frame_num).frames
      = ctx.frames ++ [copyFrameToImage ctx.lastImage ctx.curFrame true] := by
  have hf : ∀ b d, isFirstDisplayed (announce ctx b d) frame_num = true := fun _ _ => h
  have hh : ∀ b d, isHiddenFrame (announce ctx b d) frame_num = false := fun b d =>
    isHiddenFrame_of_firstDisplayed (hf b d)
  have heff : ∀ b d, effectiveFrame (announce ctx b d) frame_num =
      { ctx.curFrame with
        blend_op := PNG_BLEND_OP_SOURCE,
        dispose_op := if d = PNG_DISPOSE_OP_PREVIOUS then PNG_DISPOSE_OP_BACKGROUND else d } := by
    intro b d
    unfold effectiveFrame
    rw [hf b d]
    rfl
  refine ⟨?_, ?_, ?_⟩
  · rw [frameEndCallback_of_shown (hh b d), frameEndCallback_of_shown (hh _ d), heff, heff]
    rfl
  · rw [frameEndCallback_of_shown (hh b _), frameEndCallback_of_shown (hh b _), heff, heff]
    rfl
  · rw [frameEndCallback_of_shown (hh b d), heff]
    show ctx.frames ++ [composeFrame ctx.lastImage _] = _
    rw [composeFrame_source _ _ rfl]
    congr 2

/-- C2 (witness): frame 0 of a stream whose first frame is shown, announced `OVER` and
`PREVIOUS`. -/
theorem frameEndCallback_firstDisplayed_witness :
    frameEndCallback (announce (sampleCtx 0 0 false) PNG_BLEND_OP_OVER PNG_DISPOSE_OP_PREVIOUS) 0
      = frameEndCallback
          (announce (sampleCtx 0 0 false) PNG_BLEND_OP_SOURCE PNG_DISPOSE_OP_PREVIOUS) 0 ∧
    frameEndCallback (announce (sampleCtx 0 0 false) PNG_BLEND_OP_OVER PNG_DISPOSE_OP_PREVIOUS) 0
      = frameEndCallback
          (announce (sampleCtx 0 0 false) PNG_BLEND_OP_OVER PNG_DISPOSE_OP_BACKGROUND) 0 ∧
    (frameEndCallback
        (announce (sampleCtx 0 0 false) PNG_BLEND_OP_OVER PNG_DISPOSE_OP_PREVIOUS) 0).frames
      = (sampleCtx 0 0 false).frames ++
          [copyFrameToImage (sampleCtx 0 0 false).lastImage (sampleCtx 0 0 false).curFrame true] :=
  frameEndCallback_firstDisplayed (sampleCtx 0 0 false) 0 (by decide) PNG_BLEND_OP_OVER
    PNG_DISPOSE_OP_PREVIOUS

/-- C3: frame-complete of a frame that is not the first displayed one and whose dispose
operation is `PREVIOUS`, whatever its blend operation and region: the canvas after the step is
the canvas before the frame was composed (so it has the same dimensions and the same pixels),
and the frame appended to the output is the composed canvas (for the hidden first frame, the
only frame that is not emitted, nothing is composed). -/
theorem frameEndCallback_previous (ctx : ApngContext) (frame_num : Nat)
    (hf : isFirstDisplayed ctx frame_num = false)
    (hd : ctx.curFrame.dispose_op = PNG_DISPOSE_OP_PREVIOUS) :
    (frameEndCallback ctx frame_num).lastImage = ctx.lastImage ∧
    (isHiddenFrame ctx frame_num = false →
      (frameEndCallback ctx frame_num).frames
        = ctx.frames ++ [composeFrame ctx.lastImage ctx.curFrame]) := by
  have heff : effectiveFrame ctx frame_num = ctx.curFrame := by
    unfold effectiveFrame
    rw [hf]
    rfl
  cases hh : isHiddenFrame ctx frame_num with
  | true =>
    refine ⟨?_, fun hc => absurd hc (by decide)⟩
    unfold frameEndCallback
    rw [hh, if_pos rfl]
  | false =>
    rw [frameEndCallback_of_shown hh, heff]
    exact ⟨if_pos hd, fun _ => rfl⟩

/-- C3 (witness): frame 1 of a stream whose first frame is shown, blended `OVER` a red
canvas and disposed with `PREVIOUS`. -/
theorem frameEndCallback_previous_witness :
    (frameEndCallback (sampleCtx PNG_BLEND_OP_OVER PNG_DISPOSE_OP_PREVIOUS false) 1).lastImage
      = (sampleCtx PNG_BLEND_OP_OVER PNG_DISPOSE_OP_PREVIOUS false).lastImage ∧
    (frameEndCallback (sampleCtx PNG_BLEND_OP_OVER PNG_DISPOSE_OP_PREVIOUS false) 1).frames
      = (sampleCtx PNG_BLEND_OP_OVER PNG_DISPOSE_OP_PREVIOUS false).frames ++
          [composeFrame (sampleCtx PNG_BLEND_OP_OVER PNG_DISPOSE_OP_PREVIOUS false).lastImage
            (sampleCtx PNG_BLEND_OP_OVER PNG_DISPOSE_OP_PREVIOUS false).curFrame] :=
  ⟨(frameEndCallback_previous (sampleCtx PNG_BLEND_OP_OVER PNG_DISPOSE_OP_PREVIOUS false) 1
      (by decide) (by decide)).1,
    (frameEndCallback_previous (sampleCtx PNG_BLEND_OP_OVER PNG_DISPOSE_OP_PREVIOUS false) 1
      (by decide) (by decide)).2 (by decide)⟩

/-- The pixels of `copyFrameToImage` on a well-formed canvas with the region in bounds. -/
theorem copyFrameToImage_region (dest : QImage) (f : FrameBuf) (b : Bool)
    (hwf : dest.WF) (hb : f.inBounds dest) :
    (∀ x y, x < f.width → y < f.height →
      (copyFrameToImage dest f b).pixelColor ((x + f.x : Nat) : Int) ((y + f.y : Nat) : Int)
        = framePixel f x y) ∧
    (∀ X Y : Int, ¬ f.covers X Y →
      (copyFrameToImage dest f b).pixelColor X Y = dest.pixelColor X Y) :=
  storeLoop_pixels f (framePixel f) (framePixel_valid f) dest hwf hb

theorem effectiveFrame_geometry (ctx : ApngContext) (n : Nat) :
    (effectiveFrame ctx n).x = ctx.curFrame.x ∧ (effectiveFrame ctx n).y = ctx.curFrame.y ∧
    (effectiveFrame ctx n).width = ctx.curFrame.width ∧
    (effectiveFrame ctx n).height = ctx.curFrame.height := by
  unfold effectiveFrame
  split_ifs <;> exact ⟨rfl, rfl, rfl, rfl⟩

/-- The disposal loop on a well-formed image with the region in bounds: the region becomes
`Qt::transparent`, the rest is unchanged. -/
theorem clearRegion_pixels (img : QImage) (f : FrameBuf) (hwf : img.WF) (hb : f.inBounds img)
    (X Y : Int) :
    (f.covers X Y → (clearRegion img f).pixelColor X Y = QColor.transparent) ∧
    (¬ f.covers X Y → (clearRegion img f).pixelColor X Y = img.pixelColor X Y) := by
  obtain ⟨hin, hout⟩ := storeLoop_pixels f (fun _ _ => QColor.transparent) (fun _ _ => rfl)
    img hwf hb
  refine ⟨fun hc => ?_, fun hc => hout X Y hc⟩
  obtain ⟨h1, h2, h3, h4⟩ := hc
  have hx := hin (X - f.x).toNat (Y - f.y).toNat (by omega) (by omega)
  have eX : (((X - f.x).toNat + f.x : Nat) : Int) = X := by omega
  have eY : (((Y - f.y).toNat + f.y : Nat) : Int) = Y := by omega
  rw [eX, eY] at hx
  exact hx

/-- C4: frame-complete of an emitted frame whose effective dispose operation is `BACKGROUND`
and whose region lies inside the (well-formed) canvas: the composed canvas is emitted, the
canvas keeps its dimensions, every pixel inside the region `(x, y, width, height)` is
afterwards fully transparent `(0, 0, 0, 0)` and every pixel outside it equals the pixel of the
emitted composed canvas. -/
theorem frameEndCallback_background (ctx : ApngContext) (frame_num : Nat)
    (hh : isHiddenFrame ctx frame_num = false)
    (hd : (effectiveFrame ctx frame_num).dispose_op = PNG_DISPOSE_OP_BACKGROUND)
    (hwf : ctx.lastImage.WF) (hb : ctx.curFrame.inBounds ctx.lastImage) :
    (frameEndCallback ctx frame_num).frames
      = ctx.frames ++ [composeFrame ctx.lastImage (effectiveFrame ctx frame_num)] ∧
    (frameEndCallback ctx frame_num).lastImage.width = ctx.lastImage.width ∧
    (frameEndCallback ctx frame_num).lastImage.height = ctx.lastImage.height ∧
    ∀ X Y : Int,
      (ctx.curFrame.covers X Y →
        (frameEndCallback ctx frame_num).lastImage.pixelColor X Y
          = { valid := true, red := 0, green := 0, blue := 0, alpha := 0 }) ∧
      (¬ ctx.curFrame.covers X Y →
        (frameEndCallback ctx frame_num).lastImage.pixelColor X Y
          = (composeFrame ctx.lastImage (effectiveFrame ctx frame_num)).pixelColor X Y) := by
  obtain ⟨gx, gy, gw, gh⟩ := effectiveFrame_geometry ctx frame_num
  obtain ⟨cw, ch, cwf⟩ := composeFrame_shape ctx.lastImage (effectiveFrame ctx frame_num)
  have hlast : (frameEndCallback ctx frame_num).lastImage
      = clearRegion (composeFrame ctx.lastImage (effectiveFrame ctx frame_num))
          (effectiveFrame ctx frame_num) := by
    rw [frameEndCallback_of_shown hh]
    show (if _ then _ else if _ then _ else _) = _
    rw [if_neg (by rw [hd]; decide), if_pos hd]
  have hb2 : (effectiveFrame ctx frame_num).inBounds
      (composeFrame ctx.lastImage (effectiveFrame ctx frame_num)) := by
    unfold FrameBuf.inBounds at hb ⊢
    rw [gx, gy, gw, gh, cw, ch]
    exact hb
  have hcov : ∀ X Y, (effectiveFrame ctx frame_num).covers X Y ↔ ctx.curFrame.covers X Y := by
    intro X Y
    unfold FrameBuf.covers
    rw [gx, gy, gw, gh]
  obtain ⟨sw, sh, -⟩ := clearRegion_shape
    (composeFrame ctx.lastImage (effectiveFrame ctx frame_num)) (effectiveFrame ctx frame_num)
  refine ⟨?_, ?_, ?_, fun X Y => ?_⟩
  · rw [frameEndCallback_of_shown hh]
  · rw [hlast, sw, cw]
  · rw [hlast, sh, ch]
  · rw [hlast]
    obtain ⟨hin, hout⟩ := clearRegion_pixels _ _ (cwf hwf) hb2 X Y
    exact ⟨fun hc => hin ((hcov X Y).2 hc), fun hc => hout (fun h => hc ((hcov X Y).1 h))⟩

/-- C4 (witness): frame 1 of a stream whose first frame is shown, a green dot at `(1, 1)` of a
`2 × 2` red canvas, disposed with `BACKGROUND`. -/
theorem frameEndCallback_background_witness :
    (frameEndCallback (sampleCtx PNG_BLEND_OP_OVER PNG_DISPOSE_OP_BACKGROUND false) 1).frames
      = (sampleCtx PNG_BLEND_OP_OVER PNG_DISPOSE_OP_BACKGROUND false).frames ++
        [composeFrame (sampleCtx PNG_BLEND_OP_OVER PNG_DISPOSE_OP_BACKGROUND false).lastImage
          (effectiveFrame (sampleCtx PNG_BLEND_OP_OVER PNG_DISPOSE_OP_BACKGROUND false) 1)] ∧
    (frameEndCallback (sampleCtx PNG_BLEND_OP_OVER PNG_DISPOSE_OP_BACKGROUND false)
        1).lastImage.width
      = (sampleCtx PNG_BLEND_OP_OVER PNG_DISPOSE_OP_BACKGROUND false).lastImage.width ∧
    (frameEndCallback (sampleCtx PNG_BLEND_OP_OVER PNG_DISPOSE_OP_BACKGROUND false)
        1).lastImage.height
      = (sampleCtx PNG_BLEND_OP_OVER PNG_DISPOSE_OP_BACKGROUND false).lastImage.height ∧
    ∀ X Y : Int,
      ((sampleCtx PNG_BLEND_OP_OVER PNG_DISPOSE_OP_BACKGROUND false).curFrame.covers X Y →
        (frameEndCallback (sampleCtx PNG_BLEND_OP_OVER PNG_DISPOSE_OP_BACKGROUND false)
            1).lastImage.pixelColor X Y
          = { valid := true, red := 0, green := 0, blue := 0, alpha := 0 }) ∧
      (¬ (sampleCtx PNG_BLEND_OP_OVER PNG_DISPOSE_OP_BACKGROUND false).curFrame.covers X Y →
        (frameEndCallback (sampleCtx PNG_BLEND_OP_OVER PNG_DISPOSE_OP_BACKGROUND false)
            1).lastImage.pixelColor X Y
          = (composeFrame (sampleCtx PNG_BLEND_OP_OVER PNG_DISPOSE_OP_BACKGROUND false).lastImage
              (effectiveFrame (sampleCtx PNG_BLEND_OP_OVER PNG_DISPOSE_OP_BACKGROUND false)
                1)).pixelColor X Y) :=
  frameEndCallback_background (sampleCtx PNG_BLEND_OP_OVER PNG_DISPOSE_OP_BACKGROUND false) 1
    (by decide) (by decide) (by decide) (by decide)

/-! ## `SOURCE` composition -/

/-- C5: `copyFrameToImage` on a well-formed canvas with the frame region in bounds: the
canvas keeps its dimensions; the canvas pixel at `(x + f.x, y + f.y)` is the frame's pixel
`(x, y)`, whose four channels are the row bytes `B, G, R, A` at `rows[y][4 * x ..]`, alpha
included (the byte offset `4 * x` being a `quint32`); every canvas pixel outside the region is
unchanged. -/
theorem copyFrameToImage_pixels (dest : QImage) (f : FrameBuf) (b : Bool)
    (hwf : dest.WF) (hb : f.inBounds dest) :
    (copyFrameToImage dest f b).width = dest.width ∧
    (copyFrameToImage dest f b).height = dest.height ∧
    (∀ x y, x < f.width → y < f.height →
      (copyFrameToImage dest f b).pixelColor ((x + f.x : Nat) : Int) ((y + f.y : Nat) : Int)
        = framePixel f x y ∧
      (4 * x < 2 ^ 32 → framePixel f x y
        = { valid := true,
            red := rowByte f y (4 * x + 2), green := rowByte f y (4 * x + 1),
            blue := rowByte f y (4 * x + 0), alpha := rowByte f y (4 * x + 3) })) ∧
    (∀ X Y : Int, ¬ f.covers X Y →
      (copyFrameToImage dest f b).pixelColor X Y = dest.pixelColor X Y) := by
  obtain ⟨hw, hh, -⟩ := copyFrameToImage_shape dest f b
  obtain ⟨hin, hout⟩ := copyFrameToImage_region dest f b hwf hb
  refine ⟨hw, hh, fun x y hx hy => ⟨hin x y hx hy, fun h4 => ?_⟩, hout⟩
  have h4 : toU32 (x * 4) = 4 * x := by
    unfold toU32
    rw [Nat.mod_eq_of_lt (by omega)]
    omega
  rw [framePixel_eq, h4]

/-- C5 (witness): the green dot copied to `(1, 1)` of the `2 × 2` red canvas. -/
theorem copyFrameToImage_pixels_witness :
    (copyFrameToImage redCanvas (greenDot 0 0) true).width = redCanvas.width ∧
    (copyFrameToImage redCanvas (greenDot 0 0) true).height = redCanvas.height ∧
    (∀ x y, x < (greenDot 0 0).width → y < (greenDot 0 0).height →
      (copyFrameToImage redCanvas (greenDot 0 0) true).pixelColor
          ((x + (greenDot 0 0).x : Nat) : Int) ((y + (greenDot 0 0).y : Nat) : Int)
        = framePixel (greenDot 0 0) x y ∧
      (4 * x < 2 ^ 32 → framePixel (greenDot 0 0) x y
        = { valid := true,
            red := rowByte (greenDot 0 0) y (4 * x + 2),
            green := rowByte (greenDot 0 0) y (4 * x + 1),
            blue := rowByte (greenDot 0 0) y (4 * x + 0),
            alpha := rowByte (greenDot 0 0) y (4 * x + 3) })) ∧
    (∀ X Y : Int, ¬ (greenDot 0 0).covers X Y →
      (copyFrameToImage redCanvas (greenDot 0 0) true).pixelColor X Y
        = redCanvas.pixelColor X Y) :=
  copyFrameToImage_pixels redCanvas (greenDot 0 0) true (by decide) (by decide)

/-! ## The hidden first frame -/

/-- C6: with the first-frame-is-hidden flag set, frame-complete for index 0 leaves the whole
state unchanged: nothing is appended to the frames or the delays and the canvas is the same,
whatever the canvas, the frame metadata and the frame pixels are. -/
theorem frameEndCallback_hidden (ctx : ApngContext) (h : ctx.skipFirst = true) :
    frameEndCallback ctx 0 = ctx ∧
    (frameEndCallback ctx 0).frames = ctx.frames ∧
    (frameEndCallback ctx 0).delays = ctx.delays ∧
    (frameEndCallback ctx 0).lastImage = ctx.lastImage := by
  have h0 : frameEndCallback ctx 0 = ctx := by
    unfold frameEndCallback isHiddenFrame
    simp [h]
  rw [h0]
  exact ⟨rfl, rfl, rfl, rfl⟩

/-- C6 (witness): the hidden first frame of a stream over the red canvas. -/
theorem frameEndCallback_hidden_witness :
    frameEndCallback (sampleCtx PNG_BLEND_OP_OVER 0 true) 0 = sampleCtx PNG_BLEND_OP_OVER 0 true ∧
    (frameEndCallback (sampleCtx PNG_BLEND_OP_OVER 0 true) 0).frames
      = (sampleCtx PNG_BLEND_OP_OVER 0 true).frames ∧
    (frameEndCallback (sampleCtx PNG_BLEND_OP_OVER 0 true) 0).delays
      = (sampleCtx PNG_BLEND_OP_OVER 0 true).delays ∧
    (frameEndCallback (sampleCtx PNG_BLEND_OP_OVER 0 true) 0).lastImage
      = (sampleCtx PNG_BLEND_OP_OVER 0 true).lastImage :=
  frameEndCallback_hidden (sampleCtx PNG_BLEND_OP_OVER 0 true) rfl

/-! ## Delays -/

/-- The integer quotient is what the `double` computation of the delay yields: for 16-bit
operands and any rounding `fl` that is exact on integers and has relative error at most
`2^-53`, the truncated rounded quotient is the integer quotient. -/
theorem delayMsDouble_eq (fl : ℚ → ℚ) (hexact : ∀ k : ℕ, fl k = k)
    (herr : ∀ q : ℚ, 0 ≤ q → |fl q - q| ≤ q / 2 ^ 53)
    (num den : Nat) (hn : num < 2 ^ 16) (hd : den < 2 ^ 16) :
    delayMsDouble fl num den = delayMs num den := by
  unfold delayMsDouble delayMs
  by_cases hpos : den > 0
  · rw [if_pos hpos, if_pos hpos]
    have hdq : (0 : ℚ) < den := by exact_mod_cast hpos
    have hsplit : 1000 * num = den * (1000 * num / den) + 1000 * num % den :=
      (Nat.div_add_mod _ _).symm
    have hr : 1000 * num % den < den := Nat.mod_lt _ hpos
    set k := 1000 * num / den with hk
    set r := 1000 * num % den with hrdef
    have hq : ((1000 * num : ℚ)) / den = k + (r : ℚ) / den := by
      have : ((1000 * num : ℕ) : ℚ) = (den : ℚ) * k + r := by exact_mod_cast hsplit
      push_cast at this
      rw [this]
      field_simp
      ring
    rw [hq]
    by_cases hr0 : r = 0
    · rw [hr0]
      simp only [Nat.cast_zero, zero_div, add_zero, hexact]
      unfold truncToInt
      rw [if_pos (by positivity)]
      simp
    · have hr1 : 1 ≤ r := Nat.one_le_iff_ne_zero.2 hr0
      have hq0 : (0 : ℚ) ≤ k + (r : ℚ) / den := by positivity
      have he := herr _ hq0
      have hqle : (k : ℚ) + (r : ℚ) / den ≤ 2 ^ 26 := by
        rw [← hq]
        rw [div_le_iff₀ hdq]
        have h1 : (1 : ℚ) ≤ den := by exact_mod_cast hpos
        have h2 : (num : ℚ) < 2 ^ 16 := by exact_mod_cast hn
        nlinarith
      have hden : (den : ℚ) < 2 ^ 16 := by exact_mod_cast hd
      have hlow : (1 : ℚ) / den ≤ (r : ℚ) / den := by
        apply div_le_div_of_nonneg_right _ hdq.le
        exact_mod_cast hr1
      have hhigh : (r : ℚ) / den ≤ 1 - 1 / den := by
        rw [div_le_iff₀ hdq]
        have : (r : ℚ) + 1 ≤ den := by exact_mod_cast hr
        field_simp
        linarith
      have hinv : (1 : ℚ) / 2 ^ 16 < 1 / den := by
        apply one_div_lt_one_div_of_lt hdq hden
      have hbound : (k + (r : ℚ) / den) / 2 ^ 53 ≤ 1 / 2 ^ 27 := by
        rw [div_le_div_iff₀ (by positivity) (by positivity)]
        have : ((2 : ℚ) ^ 53) = 2 ^ 26 * 2 ^ 27 := by norm_num
        rw [this]
        nlinarith
      have habs := abs_le.1 (he.trans hbound)
      have hsmall : (1 : ℚ) / 2 ^ 27 < 1 / 2 ^ 16 := by norm_num
      have hfl_lo : (k : ℚ) < fl (k + (r : ℚ) / den) := by linarith [habs.1]
      have hfl_hi : fl (k + (r : ℚ) / den) < k + 1 := by linarith [habs.2]
      unfold truncToInt
      have hk0 : (0 : ℚ) ≤ k := by positivity
      rw [if_pos (by linarith)]
      rw [Int.floor_eq_iff]
      constructor
      · push_cast; linarith
      · push_cast; linarith
  · rw [if_neg hpos, if_neg hpos]

theorem effectiveFrame_delay (ctx : ApngContext) (n : Nat) :
    (effectiveFrame ctx n).delay_num = ctx.curFrame.delay_num ∧
    (effectiveFrame ctx n).delay_den = ctx.curFrame.delay_den := by
  unfold effectiveFrame
  split_ifs <;> exact ⟨rfl, rfl⟩

theorem frameEndCallback_delays {ctx : ApngContext} {n : Nat}
    (hh : isHiddenFrame ctx n = false) :
    (frameEndCallback ctx n).delays
      = ctx.delays ++ [delayMs ctx.curFrame.delay_num ctx.curFrame.delay_den] := by
  obtain ⟨h1, h2⟩ := effectiveFrame_delay ctx n
  rw [frameEndCallback_of_shown hh]
  show ctx.delays ++ [delayMs _ _] = _
  rw [h1, h2]

/-- C7 (counterexample): for `delay_num = 2`, `delay_den = 3` the emitted delay is `666`,
while `1000 · 2 / 3` rounded to the nearest integer is `667`. -/
theorem frameEndCallback_delay_not_rounded :
    (frameEndCallback (delayCtx 2 3) 1).delays = [666] ∧ specDelay 2 3 = 667 ∧
    (frameEndCallback (delayCtx 2 3) 1).delays ≠ (delayCtx 2 3).delays ++ [specDelay 2 3] := by
  have h1 : (frameEndCallback (delayCtx 2 3) 1).delays = [666] := by decide
  have h2 : specDelay 2 3 = 667 := by
    unfold specDelay
    apply round_eq_of_bounds <;> norm_num
  refine ⟨h1, h2, ?_⟩
  rw [h1, h2]
  decide

/-- C7 (amended): for every `delay_num` and every `delay_den > 0` (16-bit values in the
source), the delay appended for an emitted animation frame is `1000 · delay_num / delay_den`
rounded down (the quotient truncated by the conversion to `int`), and nothing else is
appended. -/
theorem frameEndCallback_delay_floor (ctx : ApngContext) (frame_num : Nat)
    (hh : isHiddenFrame ctx frame_num = false) (hpos : 0 < ctx.curFrame.delay_den) :
    (frameEndCallback ctx frame_num).delays
      = ctx.delays ++
        [⌊((1000 * ctx.curFrame.delay_num : Nat) : ℚ) / (ctx.curFrame.delay_den : ℚ)⌋] := by
  rw [frameEndCallback_delays hh, Rat.floor_natCast_div_natCast]
  unfold delayMs
  rw [if_pos hpos]
  rfl

/-- C7 (amended, witness): the delay `2 / 3` of frame 1. -/
theorem frameEndCallback_delay_floor_witness :
    (frameEndCallback (delayCtx 2 3) 1).delays
      = (delayCtx 2 3).delays ++
        [⌊((1000 * (delayCtx 2 3).curFrame.delay_num : Nat) : ℚ)
          / ((delayCtx 2 3).curFrame.delay_den : ℚ)⌋] :=
  frameEndCallback_delay_floor (delayCtx 2 3) 1 (by decide) (by decide)

/-- C8 (counterexample): for `delay_num = 5` the frame announced with `delay_den = 0` gets the
delay `0`, while with `delay_den = 100` it gets `50 = 10 · 5`. -/
theorem frameEndCallback_delay_den_zero_not_100 :
    (frameEndCallback (delayCtx 5 0) 1).delays = [0] ∧
    (frameEndCallback (delayCtx 5 100) 1).delays = [10 * 5] ∧
    (frameEndCallback (delayCtx 5 0) 1).delays ≠ (frameEndCallback (delayCtx 5 100) 1).delays := by
  decide

/-- C8 (amended): an emitted animation frame whose `delay_den` is `0` gets the delay `0`,
whatever `delay_num` is. -/
theorem frameEndCallback_delay_den_zero (ctx : ApngContext) (frame_num : Nat)
    (hh : isHiddenFrame ctx frame_num = false) (hden : ctx.curFrame.delay_den = 0) :
    (frameEndCallback ctx frame_num).delays = ctx.delays ++ [0] := by
  rw [frameEndCallback_delays hh, hden]
  rfl

/-- C8 (amended, witness): the delay `5 / 0` of frame 1. -/
theorem frameEndCallback_delay_den_zero_witness :
    (frameEndCallback (delayCtx 5 0) 1).delays = (delayCtx 5 0).delays ++ [0] :=
  frameEndCallback_delay_den_zero (delayCtx 5 0) 1 (by decide) (by decide)

/-! ## Loop count -/

theorem loopCountOfPlays_eq (plays : Nat) (hp : plays < 2 ^ 32) :
    (plays = 0 → loopCountOfPlays plays = -1) ∧
    (1 ≤ plays → loopCountOfPlays plays = toInt32 (plays - 1)) ∧
    (1 ≤ plays → plays ≤ 2 ^ 31 → loopCountOfPlays plays = (plays : Int) - 1) := by
  have e32 : (2 : Nat) ^ 32 = 4294967296 := by norm_num
  have e31 : (2 : Nat) ^ 31 = 2147483648 := by norm_num
  have i32 : (2 : Int) ^ 32 = 4294967296 := by norm_num
  have i31 : (2 : Int) ^ 31 = 2147483648 := by norm_num
  unfold loopCountOfPlays toU32 toInt32 wrapInt32
  rw [e32, e31, i32, i31] at *
  refine ⟨fun h0 => ?_, fun h1 => ?_, fun h1 h2 => ?_⟩
  · subst h0; rfl
  · rw [if_neg (by omega)]
    split_ifs <;> omega
  · rw [if_neg (by omega)]
    split_ifs <;> omega

/-- C9: on header-complete of an animated stream (`acTL` present) with a 32-bit `plays`:
the loop count is `-1` for `plays = 0`; for `plays = k ≥ 1` it is `k - 1` as a 32-bit signed
integer, which is the integer `k - 1` itself as long as `k ≤ 2^31`. -/
theorem infoCallback_loopCount (ctx : ApngContext) (info : PngInfo) (num_frames plays : Nat)
    (h : info.acTL = some (num_frames, plays)) (hp : plays < 2 ^ 32) :
    (infoCallback ctx info).isAnimated = true ∧
    (plays = 0 → (infoCallback ctx info).loopCount = -1) ∧
    (1 ≤ plays → (infoCallback ctx info).loopCount = toInt32 (plays - 1)) ∧
    (1 ≤ plays → plays ≤ 2 ^ 31 → (infoCallback ctx info).loopCount = (plays : Int) - 1) := by
  have hl : (infoCallback ctx info).loopCount = loopCountOfPlays plays ∧
      (infoCallback ctx info).isAnimated = true := by
    unfold infoCallback
    simp only [h]
    split_ifs <;> exact ⟨rfl, rfl⟩
  rw [hl.1]
  exact ⟨hl.2, loopCountOfPlays_eq plays hp⟩

/-- C9 (witness): an animation announced with 3 plays has loop count 2. -/
theorem infoCallback_loopCount_witness :
    (infoCallback {} (animatedInfo 3)).isAnimated = true ∧
    (infoCallback {} (animatedInfo 3)).loopCount = toInt32 (3 - 1) ∧
    (infoCallback {} (animatedInfo 3)).loopCount = ((3 : Nat) : Int) - 1 :=
  ⟨(infoCallback_loopCount {} (animatedInfo 3) 2 3 rfl (by decide)).1,
    (infoCallback_loopCount {} (animatedInfo 3) 2 3 rfl (by decide)).2.2.1 (by decide),
    (infoCallback_loopCount {} (animatedInfo 3) 2 3 rfl (by decide)).2.2.2 (by decide)
      (by decide)⟩

/-! ## A non-animated PNG -/

theorem QImage.create_fill_WF (w h : Nat) (hw0 : 0 < w) (hw : w < 2 ^ 31) (hh0 : 0 < h)
    (hh : h < 2 ^ 31) (c : QColor) :
    ((QImage.create (toInt32 (toU32 w)) (toInt32 (toU32 h))).fill c).WF ∧
    ((QImage.create (toInt32 (toU32 w)) (toInt32 (toU32 h))).fill c).width = w ∧
    ((QImage.create (toInt32 (toU32 w)) (toInt32 (toU32 h))).fill c).height = h := by
  have ew : toInt32 (toU32 w) = (w : Int) := by
    have := @canvasCoord_eq w 0 (by omega)
    simpa [canvasCoord] using this
  have eh : toInt32 (toU32 h) = (h : Int) := by
    have := @canvasCoord_eq h 0 (by omega)
    simpa [canvasCoord] using this
  rw [ew, eh]
  unfold QImage.create
  rw [if_neg (by omega)]
  simp only [QImage.fill, QImage.WF, Int.toNat_ofNat, List.length_map, List.length_replicate,
    List.mem_map, List.mem_replicate]
  refine ⟨⟨hw, hh, trivial, ?_⟩, trivial, trivial⟩
  rintro line ⟨l, ⟨-, rfl⟩, rfl⟩
  simp

/-- C16 (counterexample): called on a PNG stream at position 8, `canRead` answers `true` and
leaves the stream at position 0, not 8. -/
theorem canRead_moves_position :
    (lengthStream 0 0 0 13 20 8).pos = 8 ∧
    canRead (some (lengthStream 0 0 0 13 20 8)) = (true, some (lengthStream 0 0 0 13 20 0)) ∧
    (canRead (some (lengthStream 0 0 0 13 20 8))).2 ≠ some (lengthStream 0 0 0 13 20 8) := by
  decide

/-- C16 (amended): on a readable random-access byte source at any position, `canRead` leaves
the bytes unchanged and the position at 0 (it seeks to the start and only peeks afterwards),
so the position is unchanged exactly when it was 0; it returns whether the stream has at least
8 bytes and its first 8 bytes are the PNG signature. -/
theorem canRead_seeks_start (d : QIODevice) (hr : d.readable = true) :
    (canRead (some d)).2 = some { d with pos := 0 } ∧
    ((canRead (some d)).2 = some d ↔ d.pos = 0) ∧
    ((canRead (some d)).1 = true ↔
      8 ≤ d.data.length ∧ (d.data.take 8).map (fun b => b % 256) = pngSignature) := by
  have hpeek : (d.seek 0).peek 8 = d.data.take 8 := by
    simp [QIODevice.seek, QIODevice.peek]
  have hcan : canRead (some d) =
      if ((d.seek 0).peek 8).length < 8 ∨ png_sig_cmp ((d.seek 0).peek 8) ≠ 0 then
        (false, some (d.seek 0)) else (true, some (d.seek 0)) := by
    unfold canRead
    simp only []
    rw [if_pos hr]
  have hdev : (canRead (some d)).2 = some { d with pos := 0 } := by
    rw [hcan]
    split_ifs <;> rfl
  refine ⟨hdev, ?_, ?_⟩
  · rw [hdev]
    constructor
    · intro h
      have := congrArg (fun o => o.map QIODevice.pos) h
      simpa using this.symm
    · intro h
      cases d
      simp only at h
      subst h
      rfl
  · rw [hcan, hpeek]
    unfold png_sig_cmp
    by_cases h8 : 8 ≤ d.data.length
    · have hlen : (d.data.take 8).length = 8 := by simp [h8]
      by_cases hs : (d.data.take 8).map (fun b => b % 256) = pngSignature
      · simp [hlen, hs, h8]
      · rw [if_pos (Or.inr (by rw [if_neg hs]; decide))]
        simp only [Bool.false_eq_true, false_iff, not_and]
        exact fun _ => hs
    · have hlen : (d.data.take 8).length < 8 := by
        simp only [List.length_take]
        omega
      simp [hlen, h8]

/-- C16 (amended, witness): a PNG stream at position 8. -/
theorem canRead_seeks_start_witness :
    (canRead (some (lengthStream 0 0 0 13 20 8))).2
      = some { lengthStream 0 0 0 13 20 8 with pos := 0 } ∧
    ((canRead (some (lengthStream 0 0 0 13 20 8))).2 = some (lengthStream 0 0 0 13 20 8) ↔
      (lengthStream 0 0 0 13 20 8).pos = 0) ∧
    ((canRead (some (lengthStream 0 0 0 13 20 8))).1 = true ↔
      8 ≤ (lengthStream 0 0 0 13 20 8).data.length ∧
        ((lengthStream 0 0 0 13 20 8).data.take 8).map (fun b => b % 256) = pngSignature) :=
  canRead_seeks_start (lengthStream 0 0 0 13 20 8) rfl

/-! ## Chunk lengths -/

/-- C17 (code evaluated at the failing inputs): after the signature, a length field
`FF FF FF FF` (`L = 2^32 - 1`) followed by only 20 bytes makes `readChunk(ctx, 0)` hand 11
bytes to `png_process_data` and return `true`; a length field `80 00 00 00` (`L = 2^31`)
followed by only 4 bytes makes it hand 8 bytes over before it returns `false`. -/
theorem readChunk_oversized_length_accepted :
    qFromBigEndian32 ((lengthStream 255 255 255 255 20 8).peek 4) = 2 ^ 32 - 1 ∧
    (readChunkData (lengthStream 255 255 255 255 20 8) 0).2
      = some [255, 255, 255, 255, 0, 0, 0, 0, 0, 0, 0] ∧
    (readChunk idlePng
      { device := some (lengthStream 255 255 255 255 20 8), png := (), ctx := {} } 0).result
      = some true ∧
    qFromBigEndian32 ((lengthStream 128 0 0 0 4 8).peek 4) = 2 ^ 31 ∧
    (readChunkData (lengthStream 128 0 0 0 4 8) 0).2 = some [128, 0, 0, 0, 0, 0, 0, 0] ∧
    (readChunk idlePng
      { device := some (lengthStream 128 0 0 0 4 8), png := (), ctx := {} } 0).result
      = some false := by
  decide

/-! ## `OVER` composition: transparent and opaque source pixels -/

theorem blendPixel_alpha0 (im : QImage) (f : FrameBuf) (x y : Nat)
    (h0 : (framePixel f x y).alpha = 0) : blendPixel im f x y = im := by
  unfold blendPixel
  simp only []
  rw [if_neg (by rw [h0]; decide), if_neg (by rw [h0]; decide)]

theorem blendPixel_alpha255 (im : QImage) (f : FrameBuf) (x y : Nat)
    (h255 : (framePixel f x y).alpha = 255) :
    blendPixel im f x y
      = im.setPixelColor (canvasCoord x f.x) (canvasCoord y f.y) (framePixel f x y) := by
  unfold blendPixel
  simp only []
  rw [if_pos (by rw [h255])]
  rfl

/-- C18: `blendFrame` on a well-formed canvas with the frame region in bounds: a canvas pixel
whose source pixel has alpha 0 is unchanged, a canvas pixel whose source pixel has alpha 255
becomes exactly the source pixel, and every canvas pixel outside the frame region is
unchanged. -/
theorem blendFrame_pixels (dest : QImage) (f : FrameBuf) (hwf : dest.WF)
    (hb : f.inBounds dest) :
    (∀ x y, x < f.width → y < f.height → (framePixel f x y).alpha = 0 →
      (blendFrame dest f).pixelColor ((x + f.x : Nat) : Int) ((y + f.y : Nat) : Int)
        = dest.pixelColor ((x + f.x : Nat) : Int) ((y + f.y : Nat) : Int)) ∧
    (∀ x y, x < f.width → y < f.height → (framePixel f x y).alpha = 255 →
      (blendFrame dest f).pixelColor ((x + f.x : Nat) : Int) ((y + f.y : Nat) : Int)
        = framePixel f x y) ∧
    (∀ X Y : Int, ¬ f.covers X Y →
      (blendFrame dest f).pixelColor X Y = dest.pixelColor X Y) := by
  obtain ⟨hbx, hby⟩ := inBounds_lt hwf hb
  refine ⟨fun x y hx hy h0 => ?_, fun x y hx hy h255 => ?_, fun X Y hc => ?_⟩
  · have hw := pixelLoop_writer (fun im x y => blendPixel im f x y) f.x f.y f.width f.height
      (blendBody_localStep f) hbx hby x y hx hy (fun c => c) dest hwf
      (fun im _ _ _ => by
        show (blendPixel im f x y).pixelColor _ _ = _
        rw [blendPixel_alpha0 im f x y h0])
    rw [canvasCoord_eq (by omega), canvasCoord_eq (by omega)] at hw
    exact hw
  · have hw := pixelLoop_writer (fun im x y => blendPixel im f x y) f.x f.y f.width f.height
      (blendBody_localStep f) hbx hby x y hx hy (fun _ => framePixel f x y) dest hwf ?_
    · rw [canvasCoord_eq (by omega), canvasCoord_eq (by omega)] at hw
      exact hw
    · intro im hwfi hwi hhi
      show (blendPixel im f x y).pixelColor _ _ = framePixel f x y
      rw [blendPixel_alpha255 im f x y h255, QImage.pixelColor_setPixelColor hwfi, if_pos,
        fromRgba_rgba (framePixel_valid f x y)]
      refine ⟨⟨rfl, rfl⟩, ?_, framePixel_valid f x y⟩
      rw [canvasCoord_eq (by omega), canvasCoord_eq (by omega)]
      unfold QImage.inRange
      rw [hwi, hhi]
      obtain ⟨h1, h2⟩ := hb
      omega
  · obtain ⟨-, -, h3⟩ := pixelLoop_frame (fun im x y => blendPixel im f x y) f.x f.y f.width
      f.height (blendBody_localStep f) dest
    exact (h3 hwf).2 X Y (fun hex => hc ((covers_iff f hbx hby X Y).1 hex))

/-- C18 (witness): a transparent and an opaque pixel blended onto the second row of the
`2 × 2` red canvas. -/
theorem blendFrame_pixels_witness :
    (blendFrame redCanvas twoDots).pixelColor ((0 + twoDots.x : Nat) : Int)
        ((0 + twoDots.y : Nat) : Int)
      = redCanvas.pixelColor ((0 + twoDots.x : Nat) : Int) ((0 + twoDots.y : Nat) : Int) ∧
    (blendFrame redCanvas twoDots).pixelColor ((1 + twoDots.x : Nat) : Int)
        ((0 + twoDots.y : Nat) : Int)
      = framePixel twoDots 1 0 ∧
    (∀ X Y : Int, ¬ twoDots.covers X Y →
      (blendFrame redCanvas twoDots).pixelColor X Y = redCanvas.pixelColor X Y) :=
  ⟨(blendFrame_pixels redCanvas twoDots (by decide) (by decide)).1 0 0 (by decide) (by decide)
      (by decide),
    (blendFrame_pixels redCanvas twoDots (by decide) (by decide)).2.1 1 0 (by decide)
      (by decide) (by decide),
    (blendFrame_pixels redCanvas twoDots (by decide) (by decide)).2.2⟩

/-! ## Invariants of the callbacks -/

theorem runEvents_inv (combine : List Nat → List Nat → List Nat) (Allowed : PngEvent → Prop)
    (P : ApngContext → Prop)
    (hP : ∀ ctx e, Allowed e → P ctx → P (dispatch combine ctx e))
    (events : List PngEvent) (ha : ∀ e ∈ events, Allowed e) (ctx : ApngContext) (h : P ctx) :
    P (runEvents combine ctx events) := by
  induction events generalizing ctx with
  | nil => exact h
  | cons e t ih =>
    show P (runEvents combine (dispatch combine ctx e) t)
    exact ih (fun e1 he1 => ha e1 (List.mem_cons_of_mem _ he1)) _
      (hP ctx e (ha e (List.mem_cons_self _ _)) h)

theorem readChunk_inv {σ : Type} (png : LibPng σ) (Allowed : PngEvent → Prop)
    (hpng : png.reportsOnly Allowed) (P : ApngContext → Prop)
    (hP : ∀ ctx e, Allowed e → P ctx → P (dispatch png.combine ctx e))
    (st : DecodeState σ) (length : Nat) (h : P st.ctx) :
    (readChunk png st length).ctxSatisfies P := by
  unfold readChunk
  split
  · exact h
  · split_ifs
    · exact h
    · split
      · exact h
      · split
        · trivial
        · next s events hproc =>
          exact runEvents_inv png.combine Allowed P hP events (hpng _ _ _ _ hproc) _ h

theorem parseLoop_inv {σ : Type} (png : LibPng σ) (Allowed : PngEvent → Prop)
    (hpng : png.reportsOnly Allowed) (P : ApngContext → Prop)
    (hP : ∀ ctx e, Allowed e → P ctx → P (dispatch png.combine ctx e))
    (fuel : Nat) (st : DecodeState σ) (h : P st.ctx) :
    (parseLoop png fuel st).ctxSatisfies P := by
  induction fuel generalizing st with
  | zero => exact h
  | succ n ih =>
    unfold parseLoop
    split_ifs with hend
    · exact h
    · have hr := readChunk_inv png Allowed hpng P hP st 0 h
      split
      · trivial
      · next st1 heq =>
        rw [heq] at hr
        exact hr
      · next st1 heq =>
        rw [heq] at hr
        split_ifs
        · exact hr
        · exact ih st1 hr

theorem parseAll_inv {σ : Type} (png : LibPng σ) (Allowed : PngEvent → Prop)
    (hpng : png.reportsOnly Allowed) (P : ApngContext → Prop)
    (hP : ∀ ctx e, Allowed e → P ctx → P (dispatch png.combine ctx e))
    (device : Option QIODevice) (h : P {}) :
    (parseAll png device).ctxSatisfies P := by
  unfold parseAll
  have hr := readChunk_inv png Allowed hpng P hP
    { device := device, png := png.init, ctx := {} } 8 h
  split
  · trivial
  · next r st1 heq =>
    rw [heq] at hr
    exact parseLoop_inv png Allowed hpng P hP _ st1 hr

/-! ## Frames and delays -/

theorem frameEndCallback_hidden_eq {ctx : ApngContext} {n : Nat}
    (hh : isHiddenFrame ctx n = true) : frameEndCallback ctx n = ctx := by
  unfold frameEndCallback
  rw [hh, if_pos rfl]

theorem infoCallback_frames (ctx : ApngContext) (info : PngInfo) :
    (infoCallback ctx info).frames = ctx.frames ∧ (infoCallback ctx info).delays = ctx.delays := by
  unfold infoCallback
  cases info.acTL with
  | none => exact ⟨rfl, rfl⟩
  | some a =>
    simp only []
    split_ifs <;> exact ⟨rfl, rfl⟩

theorem dispatch_lengths (combine : List Nat → List Nat → List Nat) (ctx : ApngContext)
    (e : PngEvent) (h : ctx.frames.length = ctx.delays.length) :
    (dispatch combine ctx e).frames.length = (dispatch combine ctx e).delays.length := by
  cases e with
  | info i =>
    show (infoCallback ctx i).frames.length = (infoCallback ctx i).delays.length
    rw [(infoCallback_frames ctx i).1, (infoCallback_frames ctx i).2]
    exact h
  | frameInfo n => exact h
  | row rowNum newRow => exact h
  | frameEnd frame_num =>
    show (frameEndCallback ctx frame_num).frames.length
      = (frameEndCallback ctx frame_num).delays.length
    cases hh : isHiddenFrame ctx frame_num with
    | true =>
      rw [frameEndCallback_hidden_eq hh]
      exact h
    | false =>
      rw [frameEndCallback_of_shown hh]
      simp only [List.length_append, List.length_singleton, h]
  | streamEnd =>
    show (endCallback ctx).frames.length = (endCallback ctx).delays.length
    unfold endCallback
    split_ifs
    · exact h
    · simp only [List.length_append, List.length_singleton, h]

/-- C11: the frame list and the delay list have the same length in the initial decode state;
every callback (header-complete, frame-info, row, frame-complete, stream-complete) keeps the
two lengths equal, so they are equal after every sequence of callbacks; and the frames and
delays `ensureParsed` leaves in its output arguments have the same length whenever the lists
passed in had (they are empty in the handler). -/
theorem frames_delays_same_length {σ : Type} (png : LibPng σ) :
    ({} : ApngContext).frames.length = ({} : ApngContext).delays.length ∧
    (∀ ctx e, ctx.frames.length = ctx.delays.length →
      (dispatch png.combine ctx e).frames.length = (dispatch png.combine ctx e).delays.length) ∧
    (∀ events, (runEvents png.combine {} events).frames.length
      = (runEvents png.combine {} events).delays.length) ∧
    (∀ device out, out.frames.length = out.delays.length →
      (ensureParsed png device out).out.frames.length
        = (ensureParsed png device out).out.delays.length) := by
  refine ⟨rfl, dispatch_lengths png.combine, fun events => ?_, fun device out hout => ?_⟩
  · exact runEvents_inv png.combine (fun _ => True)
      (fun ctx => ctx.frames.length = ctx.delays.length)
      (fun ctx e _ h => dispatch_lengths png.combine ctx e h) events (fun _ _ => trivial) {} rfl
  · have hall := parseAll_inv png (fun _ => True) (fun _ _ _ _ _ _ _ => trivial)
      (fun ctx => ctx.frames.length = ctx.delays.length)
      (fun ctx e _ h => dispatch_lengths png.combine ctx e h) (canRead device).2 rfl
    unfold ensureParsed
    split_ifs
    · split
      · exact hout
      · next done st2 heq =>
        rw [heq] at hall
        unfold ensureParsedFinish
        split_ifs
        · exact hout
        · exact hall
    · exact hout

/-- C11 (witness): a frame-complete step on a context with no frames, and the handler's
empty lists passed to the decode of a text file. -/
theorem frames_delays_same_length_witness :
    (dispatch idlePng.combine (sampleCtx 0 0 false) (PngEvent.frameEnd 0)).frames.length
      = (dispatch idlePng.combine (sampleCtx 0 0 false) (PngEvent.frameEnd 0)).delays.length ∧
    (ensureParsed idlePng (some textDevice) {}).out.frames.length
      = (ensureParsed idlePng (some textDevice) {}).out.delays.length :=
  ⟨(frames_delays_same_length idlePng).2.1 (sampleCtx 0 0 false) (PngEvent.frameEnd 0) rfl,
    (frames_delays_same_length idlePng).2.2.2 (some textDevice) {} rfl⟩

/-! ## Success of the decode -/

theorem dispatch_frameCount (combine : List Nat → List Nat → List Nat) (ctx : ApngContext)
    (e : PngEvent) (ha : announcesFrames e) (h : ctx.frameCount ≠ 0) :
    (dispatch combine ctx e).frameCount ≠ 0 := by
  cases e with
  | info i =>
    show (infoCallback ctx i).frameCount ≠ 0
    unfold infoCallback
    cases hac : i.acTL with
    | none => exact h
    | some a =>
      obtain ⟨nf, np⟩ := a
      have hnf : toU32 nf ≠ 0 := ha nf np hac
      simp only []
      split_ifs <;> exact hnf
  | frameInfo n => exact h
  | row rowNum newRow => exact h
  | frameEnd frame_num =>
    show (frameEndCallback ctx frame_num).frameCount ≠ 0
    cases hh : isHiddenFrame ctx frame_num with
    | true =>
      rw [frameEndCallback_hidden_eq hh]
      exact h
    | false =>
      rw [frameEndCallback_of_shown hh]
      exact h
  | streamEnd =>
    show (endCallback ctx).frameCount ≠ 0
    unfold endCallback
    split_ifs <;> exact h

theorem parseLoop_done {σ : Type} (png : LibPng σ) (fuel : Nat) (st : DecodeState σ) :
    (parseLoop png fuel st).doneSatisfies
      (fun s => toU32 s.ctx.frames.length = s.ctx.frameCount) := by
  induction fuel generalizing st with
  | zero => trivial
  | succ n ih =>
    unfold parseLoop
    split_ifs with hend
    · trivial
    · split
      · trivial
      · trivial
      · split_ifs with hd
        · exact hd.2
        · exact ih _

theorem parseAll_done {σ : Type} (png : LibPng σ) (device : Option QIODevice) :
    (parseAll png device).doneSatisfies
      (fun s => toU32 s.ctx.frames.length = s.ctx.frameCount) := by
  unfold parseAll
  split
  · trivial
  · exact parseLoop_done png _ _

/-- C12: with a libpng that announces an animation only with at least one frame, whenever
`ensureParsed` returns `true` the frame list it leaves in its output is not empty; and a
run of the chunk loop that ends with no emitted frame makes `ensureParsed` return `false`. -/
theorem ensureParsed_success_nonempty {σ : Type} (png : LibPng σ)
    (hpng : png.reportsOnly announcesFrames) (device : Option QIODevice) (out : DecodeOutput) :
    ((ensureParsed png device out).ok = true → (ensureParsed png device out).out.frames ≠ []) ∧
    (∀ done st, (canRead device).1 = true →
      parseAll png (canRead device).2 = Outcome.returned done st → st.ctx.frames = [] →
      (ensureParsed png device out).ok = false) := by
  have hinv := parseAll_inv png announcesFrames hpng (fun ctx => ctx.frameCount ≠ 0)
    (fun ctx e ha h => dispatch_frameCount png.combine ctx e ha h) (canRead device).2
    (by decide)
  have hdone := parseAll_done png (canRead device).2
  have key : ∀ done st, parseAll png (canRead device).2 = Outcome.returned done st →
      st.ctx.frames = [] → done = false := by
    intro done st heq hempty
    rw [heq] at hinv hdone
    cases done with
    | false => rfl
    | true =>
      have h1 : toU32 st.ctx.frames.length = st.ctx.frameCount := hdone
      rw [hempty] at h1
      exact absurd h1.symm hinv
  constructor
  · unfold ensureParsed
    split_ifs with hc
    · split
      · intro h; exact absurd h Bool.false_ne_true
      · next done st2 heq =>
        unfold ensureParsedFinish
        by_cases hempty : st2.ctx.frames = []
        · have hd := key done st2 heq hempty
          simp [hempty, hd]
        · intro _
          simp [hempty]
    · intro h; exact h.elim
  · intro done st hc heq hempty
    have hd := key done st heq hempty
    unfold ensureParsed
    rw [if_pos hc, heq]
    unfold ensureParsedFinish
    simp [hempty, hd]

theorem plainPng_reportsOnly : plainPng.reportsOnly announcesFrames := by
  intro s bytes s1 events h e he
  unfold plainPng at h
  simp only [] at h
  split_ifs at h
  · simp only [Option.some.injEq, Prod.mk.injEq] at h
    obtain ⟨-, rfl⟩ := h
    simp only [List.mem_cons, List.mem_singleton, List.not_mem_nil, or_false] at he
    rcases he with rfl | rfl | rfl
    · intro nf np hac
      exact absurd hac (fun hc => Option.noConfusion hc)
    · trivial
    · trivial
  · simp only [Option.some.injEq, Prod.mk.injEq] at h
    obtain ⟨-, rfl⟩ := h
    exact absurd he (List.not_mem_nil _)

/-- C12 (witness): the decode of a stream with one chunk, through a libpng that reports a
whole non-animated image for it, succeeds with one frame. -/
theorem ensureParsed_success_nonempty_witness :
    (ensureParsed plainPng (some (lengthStream 0 0 0 0 8 0)) {}).ok = true ∧
    (ensureParsed plainPng (some (lengthStream 0 0 0 0 8 0)) {}).out.frames ≠ [] :=
  ⟨by decide,
    (ensureParsed_success_nonempty plainPng plainPng_reportsOnly
      (some (lengthStream 0 0 0 0 8 0)) {}).1 (by decide)⟩

/-! ## The chunk loop terminates within its bound -/

theorem QIODevice.read_length (d : QIODevice) (n : Nat) :
    (d.read n).1.length = min n (d.data.length - d.pos) := by
  simp [QIODevice.read]

theorem QIODevice.read_data (d : QIODevice) (n : Nat) : (d.read n).2.data = d.data := rfl

theorem QIODevice.read_pos (d : QIODevice) (n : Nat) :
    (d.read n).2.pos = d.pos + min n (d.data.length - d.pos) := by
  simp [QIODevice.read]

theorem readChunkData_consumes (d d1 : QIODevice) (bytes : List Nat)
    (h : readChunkData d 0 = (d1, some bytes)) : d1.remaining + 4 ≤ d.remaining := by
  unfold readChunkData at h
  rw [if_pos rfl] at h
  simp only [] at h
  split_ifs at h with h4 hlen
  · exact absurd (congrArg Prod.snd h) (by simp)
  · exact absurd (congrArg Prod.snd h) (by simp)
  · have hl := QIODevice.read_length d 4
    simp only [Prod.mk.injEq, Option.some.injEq] at h
    obtain ⟨rfl, -⟩ := h
    unfold QIODevice.remaining
    rw [QIODevice.read_data, QIODevice.read_pos, QIODevice.read_data, QIODevice.read_pos]
    omega

theorem readChunk_consumes {σ : Type} (png : LibPng σ) (st st1 : DecodeState σ)
    (h : readChunk png st 0 = Outcome.returned true st1) :
    bytesLeft st1.device < bytesLeft st.device := by
  unfold readChunk at h
  split at h
  · exact absurd h (by simp)
  · next d hd =>
    split_ifs at h
    · exact absurd h (by simp)
    · split at h
      · exact absurd h (by simp)
      · next d1 bytes hrd =>
        split at h
        · exact absurd h (by simp)
        · simp only [Outcome.returned.injEq] at h
          obtain ⟨-, rfl⟩ := h
          have := readChunkData_consumes d d1 bytes hrd
          rw [hd]
          show d1.remaining < d.remaining
          omega

/-- The bound on the turns of the chunk loop is never what ends it: with more bytes of fuel
than the device has left, the loop gives the same result for every such fuel. -/
theorem parseLoop_fuel {σ : Type} (png : LibPng σ) (fuel : Nat) (st : DecodeState σ)
    (h : bytesLeft st.device < fuel) (fuel2 : Nat) (h2 : bytesLeft st.device < fuel2) :
    parseLoop png fuel st = parseLoop png fuel2 st := by
  induction fuel generalizing st fuel2 with
  | zero => exact absurd h (Nat.not_lt_zero _)
  | succ n ih =>
    cases fuel2 with
    | zero => exact absurd h2 (Nat.not_lt_zero _)
    | succ m =>
      unfold parseLoop
      split_ifs with hend
      · rfl
      · cases hr : readChunk png st 0 with
        | jumped dev => rfl
        | returned r st1 =>
          cases r with
          | false => rfl
          | true =>
            have hlt := readChunk_consumes png st st1 hr
            simp only []
            split_ifs
            · rfl
            · exact ih st1 (by omega) m (by omega)

/-- The check of `readChunk` does reject a truncated chunk while `L + 8` is below `2^31`: with
at least the length field left, and fewer than `L + 8` bytes after it, nothing is handed to
`png_process_data`. -/
theorem readChunkData_truncated (d : QIODevice) (h4 : 4 ≤ d.remaining)
    (hL : qFromBigEndian32 (d.peek 4) + 8 < 2 ^ 31)
    (hshort : d.remaining - 4 < qFromBigEndian32 (d.peek 4) + 8) :
    (readChunkData d 0).2 = none := by
  have hpeek : (d.read 4).1 = d.peek 4 := rfl
  have hlen4 : (d.read 4).1.length = 4 := by
    rw [QIODevice.read_length]
    unfold QIODevice.remaining at h4
    omega
  have hu : toU32 (qFromBigEndian32 (d.peek 4) + 8) = qFromBigEndian32 (d.peek 4) + 8 := by
    unfold toU32
    exact Nat.mod_eq_of_lt (by omega)
  have hi : toInt32 (qFromBigEndian32 (d.peek 4) + 8)
      = ((qFromBigEndian32 (d.peek 4) + 8 : Nat) : Int) := by
    have := @canvasCoord_eq (qFromBigEndian32 (d.peek 4) + 8) 0 (by omega)
    unfold canvasCoord at this
    rw [Nat.add_zero, hu] at this
    exact this
  unfold readChunkData
  rw [if_pos rfl]
  simp only []
  rw [if_neg (by omega), hpeek, hu, hi, if_pos]
  rw [List.length_append, ← hpeek, hlen4, QIODevice.read_length, QIODevice.read_data,
    QIODevice.read_pos]
  unfold QIODevice.remaining at h4 hshort
  rw [hpeek]
  omega

/-! ## Dimensions of the emitted frames -/

theorem infoCallback_lastImage (ctx : ApngContext) (info : PngInfo) :
    (infoCallback ctx info).lastImage = freshCanvas info := by
  unfold infoCallback
  cases info.acTL with
  | none => rfl
  | some a =>
    simp only []
    split_ifs <;> rfl

theorem frameEndCallback_sizeInv (W H : Nat) (ctx : ApngContext) (n : Nat)
    (h : SizeInv W H ctx) : SizeInv W H (frameEndCallback ctx n) := by
  cases hh : isHiddenFrame ctx n with
  | true =>
    rw [frameEndCallback_hidden_eq hh]
    exact h
  | false =>
    obtain ⟨⟨hw, hh2⟩, hfr⟩ := h
    obtain ⟨cw, ch, -⟩ := composeFrame_shape ctx.lastImage (effectiveFrame ctx n)
    obtain ⟨sw, sh, -⟩ := clearRegion_shape (composeFrame ctx.lastImage (effectiveFrame ctx n))
      (effectiveFrame ctx n)
    rw [frameEndCallback_of_shown hh]
    refine ⟨?_, ?_⟩
    · show (if _ then _ else if _ then _ else _ : QImage).width = W ∧
        (if _ then _ else if _ then _ else _ : QImage).height = H
      split_ifs
      · exact ⟨hw, hh2⟩
      · exact ⟨sw.trans (cw.trans hw), sh.trans (ch.trans hh2)⟩
      · exact ⟨cw.trans hw, ch.trans hh2⟩
    · intro fr hmem
      rcases List.mem_append.1 hmem with hm | hm
      · exact hfr fr hm
      · rw [List.mem_singleton.1 hm]
        exact ⟨cw.trans hw, ch.trans hh2⟩

theorem dispatch_sizeInv (combine : List Nat → List Nat → List Nat) (W H : Nat)
    (ctx : ApngContext) (e : PngEvent) (he : e.isInfo = false) (h : SizeInv W H ctx) :
    SizeInv W H (dispatch combine ctx e) := by
  cases e with
  | info i => exact absurd he (fun hc => Bool.noConfusion hc)
  | frameInfo n => exact h
  | row rowNum newRow => exact h
  | frameEnd frame_num => exact frameEndCallback_sizeInv W H ctx frame_num h
  | streamEnd =>
    show SizeInv W H (endCallback ctx)
    obtain ⟨⟨hw, hh2⟩, hfr⟩ := h
    obtain ⟨cw, ch, -⟩ := copyFrameToImage_shape ctx.lastImage ctx.curFrame true
    unfold endCallback
    split_ifs
    · exact ⟨⟨hw, hh2⟩, hfr⟩
    · refine ⟨⟨cw.trans hw, ch.trans hh2⟩, fun fr hmem => ?_⟩
      rcases List.mem_append.1 hmem with hm | hm
      · exact hfr fr hm
      · rw [List.mem_singleton.1 hm]
        exact ⟨cw.trans hw, ch.trans hh2⟩

/-- C19: after header-complete, whatever callbacks follow (frame-info with any sub-rectangle,
rows, frame-complete, stream-complete), the canvas and every frame of the output list have the
dimensions of the canvas allocated at header-complete, which are the IHDR width and height
when these are positive `int` values; a frame-complete step leaves the canvas dimensions as
they were, whether it composes, disposes or restores, and what it appends has them. -/
theorem emitted_frames_have_canvas_size (combine : List Nat → List Nat → List Nat)
    (info : PngInfo) (rest : List PngEvent) (hrest : ∀ e ∈ rest, e.isInfo = false) :
    (∀ fr ∈ (runEvents combine {} (PngEvent.info info :: rest)).frames,
      fr.width = (freshCanvas info).width ∧ fr.height = (freshCanvas info).height) ∧
    ((runEvents combine {} (PngEvent.info info :: rest)).lastImage.width
        = (freshCanvas info).width ∧
      (runEvents combine {} (PngEvent.info info :: rest)).lastImage.height
        = (freshCanvas info).height) ∧
    (0 < info.image_width → info.image_width < 2 ^ 31 →
      0 < info.image_height → info.image_height < 2 ^ 31 →
      (freshCanvas info).width = info.image_width ∧
        (freshCanvas info).height = info.image_height) ∧
    (∀ (ctx : ApngContext) (frame_num : Nat),
      ((frameEndCallback ctx frame_num).lastImage.width = ctx.lastImage.width ∧
        (frameEndCallback ctx frame_num).lastImage.height = ctx.lastImage.height) ∧
      ∀ fr ∈ (frameEndCallback ctx frame_num).frames, fr ∈ ctx.frames ∨
        (fr.width = ctx.lastImage.width ∧ fr.height = ctx.lastImage.height)) := by
  have h0 : SizeInv (freshCanvas info).width (freshCanvas info).height
      (dispatch combine {} (PngEvent.info info)) := by
    show SizeInv _ _ (infoCallback {} info)
    unfold SizeInv
    rw [infoCallback_lastImage, (infoCallback_frames {} info).1]
    exact ⟨⟨rfl, rfl⟩, fun fr hfr => absurd hfr (List.not_mem_nil fr)⟩
  have hinv := runEvents_inv combine (fun e => e.isInfo = false)
    (SizeInv (freshCanvas info).width (freshCanvas info).height)
    (fun ctx e he h => dispatch_sizeInv combine _ _ ctx e he h) rest hrest _ h0
  refine ⟨hinv.2, hinv.1, fun hw0 hw hh0 hh => ?_, fun ctx frame_num => ?_⟩
  · obtain ⟨-, cw, ch⟩ := QImage.create_fill_WF info.image_width info.image_height hw0 hw hh0 hh
      QColor.transparent
    exact ⟨cw, ch⟩
  · cases hh : isHiddenFrame ctx frame_num with
    | true =>
      rw [frameEndCallback_hidden_eq hh]
      exact ⟨⟨rfl, rfl⟩, fun fr hfr => Or.inl hfr⟩
    | false =>
      obtain ⟨cw, ch, -⟩ := composeFrame_shape ctx.lastImage (effectiveFrame ctx frame_num)
      obtain ⟨sw, sh, -⟩ := clearRegion_shape
        (composeFrame ctx.lastImage (effectiveFrame ctx frame_num)) (effectiveFrame ctx frame_num)
      rw [frameEndCallback_of_shown hh]
      refine ⟨?_, fun fr hmem => ?_⟩
      · show (if _ then _ else if _ then _ else _ : QImage).width = _ ∧
          (if _ then _ else if _ then _ else _ : QImage).height = _
        split_ifs
        · exact ⟨rfl, rfl⟩
        · exact ⟨sw.trans cw, sh.trans ch⟩
        · exact ⟨cw, ch⟩
      · rcases List.mem_append.1 hmem with hm | hm
        · exact Or.inl hm
        · rw [List.mem_singleton.1 hm]
          exact Or.inr ⟨cw, ch⟩

/-- C19 (witness): a two-frame animation on a `2 × 2` canvas whose second frame is a `1 × 1`
sub-rectangle. -/
theorem emitted_frames_have_canvas_size_witness :
    (∀ fr ∈ (runEvents replaceRow {} (PngEvent.info (animatedInfo 0) :: subRectEvents)).frames,
      fr.width = (freshCanvas (animatedInfo 0)).width ∧
        fr.height = (freshCanvas (animatedInfo 0)).height) ∧
    ((freshCanvas (animatedInfo 0)).width = (animatedInfo 0).image_width ∧
      (freshCanvas (animatedInfo 0)).height = (animatedInfo 0).image_height) :=
  ⟨(emitted_frames_have_canvas_size replaceRow (animatedInfo 0) subRectEvents (by decide)).1,
    (emitted_frames_have_canvas_size replaceRow (animatedInfo 0) subRectEvents
      (by decide)).2.2.1 (by decide) (by decide) (by decide) (by decide)⟩

/-! ## The playback cursor -/

theorem APNGHandler.ensureParsed_parsed {σ : Type} (png : LibPng σ) (h : APNGHandler)
    (hp : h.m_parsed = true) : APNGHandler.ensureParsed png h = (true, h) := by
  unfold APNGHandler.ensureParsed
  rw [if_pos hp]

theorem vectorAt_lt {α : Type} (v : List α) (i : Int) (h0 : 0 ≤ i) (h1 : i < v.length) :
    ∃ a, vectorAt v i = some a ∧ v[i.toNat]? = some a := by
  have hlt : i.toNat < v.length := by omega
  refine ⟨v[i.toNat], ?_, List.getElem?_eq_getElem hlt⟩
  unfold vectorAt
  rw [if_pos ⟨h0, h1⟩, List.getElem?_eq_getElem hlt]

/-- C13 (counterexample): with two frames and the delays `[10, 20]`, `nextImageDelay` returns
`10` at cursor 2 (right after the last frame was read), where `delays[2 - 1]` is `20`; and it
returns `10` at cursor 3, where there is no `delays[3 - 1]`. -/
theorem nextImageDelay_after_last_frame :
    APNGHandler.nextImageDelay idlePng (twoFrames 2) = some (10, twoFrames 2) ∧
    vectorAt (twoFrames 2).m_delays (2 - 1) = some 20 ∧
    APNGHandler.nextImageDelay idlePng (twoFrames 3) = some (10, twoFrames 3) ∧
    vectorAt (twoFrames 3).m_delays (3 - 1) = none := by
  decide

/-- C13 (amended): for a handler whose decode succeeded with a non-empty sequence (frames and
delays of the same length) and cursor `i`: `nextImageDelay` returns `delays[i - 1]` when
`0 < i < len` and `delays[0]` when `i ≤ 0` or `i > len`, without any access out of range. -/
theorem nextImageDelay_in_range {σ : Type} (png : LibPng σ) (h : APNGHandler)
    (hok : (APNGHandler.ensureParsed png h).1 = true)
    (hne : (APNGHandler.ensureParsed png h).2.m_frames ≠ [])
    (hlen : (APNGHandler.ensureParsed png h).2.m_delays.length
      = (APNGHandler.ensureParsed png h).2.m_frames.length) :
    (0 < (APNGHandler.ensureParsed png h).2.m_currentFrame →
      (APNGHandler.ensureParsed png h).2.m_currentFrame
        < (APNGHandler.ensureParsed png h).2.m_frames.length →
      ∃ d, (APNGHandler.ensureParsed png h).2.m_delays[
            ((APNGHandler.ensureParsed png h).2.m_currentFrame - 1).toNat]? = some d ∧
        APNGHandler.nextImageDelay png h = some (d, (APNGHandler.ensureParsed png h).2)) ∧
    (((APNGHandler.ensureParsed png h).2.m_currentFrame ≤ 0 ∨
        ((APNGHandler.ensureParsed png h).2.m_frames.length : Int)
          < (APNGHandler.ensureParsed png h).2.m_currentFrame) →
      ∃ d, (APNGHandler.ensureParsed png h).2.m_delays[0]? = some d ∧
        APNGHandler.nextImageDelay png h = some (d, (APNGHandler.ensureParsed png h).2)) := by
  have hpos : 0 < (APNGHandler.ensureParsed png h).2.m_frames.length :=
    List.length_pos.2 hne
  constructor
  · intro h0 h1
    obtain ⟨d, hd, hget⟩ := vectorAt_lt (APNGHandler.ensureParsed png h).2.m_delays
      ((APNGHandler.ensureParsed png h).2.m_currentFrame - 1) (by omega) (by omega)
    refine ⟨d, hget, ?_⟩
    unfold APNGHandler.nextImageDelay
    simp only []
    rw [if_pos hok, if_neg (by omega), hd]
    rfl
  · intro hc
    obtain ⟨d, hd, hget⟩ := vectorAt_lt (APNGHandler.ensureParsed png h).2.m_delays 0
      (le_refl 0) (by omega)
    refine ⟨d, hget, ?_⟩
    unfold APNGHandler.nextImageDelay
    simp only []
    rw [if_pos hok, if_pos (by omega), hd]
    rfl

/-- C13 (amended, witness): two frames with the delays `[10, 20]`, at cursor 1 and at
cursor 3. -/
theorem nextImageDelay_in_range_witness :
    (∃ d, (APNGHandler.ensureParsed idlePng (twoFrames 1)).2.m_delays[
          ((APNGHandler.ensureParsed idlePng (twoFrames 1)).2.m_currentFrame - 1).toNat]?
          = some d ∧
      APNGHandler.nextImageDelay idlePng (twoFrames 1)
        = some (d, (APNGHandler.ensureParsed idlePng (twoFrames 1)).2)) ∧
    (∃ d, (APNGHandler.ensureParsed idlePng (twoFrames 3)).2.m_delays[0]? = some d ∧
      APNGHandler.nextImageDelay idlePng (twoFrames 3)
        = some (d, (APNGHandler.ensureParsed idlePng (twoFrames 3)).2)) :=
  ⟨(nextImageDelay_in_range idlePng (twoFrames 1) (by decide) (by decide) (by decide)).1
      (by decide) (by decide),
    (nextImageDelay_in_range idlePng (twoFrames 3) (by decide) (by decide) (by decide)).2
      (by decide)⟩

/-- C14: `read` on a handler whose decode succeeded with a non-empty sequence of `len` frames
(`len` an `int`) and any cursor `i`, negative or beyond the sequence included: it returns
`true` with `frames[j]`, where `j = i` if `0 ≤ i < len` and `j = 0` otherwise, and leaves the
cursor at `j + 1`. It returns `false` exactly when the decode failed or the sequence is empty,
and then the cursor is the one before the call. -/
theorem read_spec {σ : Type} (png : LibPng σ) (h : APNGHandler) :
    ((APNGHandler.ensureParsed png h).1 = true →
      (APNGHandler.ensureParsed png h).2.m_frames ≠ [] →
      (APNGHandler.ensureParsed png h).2.m_frames.length < 2 ^ 31 →
      ∃ img,
        (APNGHandler.ensureParsed png h).2.m_frames[
          (if 0 ≤ h.m_currentFrame ∧
              h.m_currentFrame < (APNGHandler.ensureParsed png h).2.m_frames.length
            then h.m_currentFrame else 0).toNat]? = some img ∧
        APNGHandler.read png h = some (true, some img,
          { (APNGHandler.ensureParsed png h).2 with
            m_currentFrame :=
              (if 0 ≤ h.m_currentFrame ∧
                  h.m_currentFrame < (APNGHandler.ensureParsed png h).2.m_frames.length
                then h.m_currentFrame else 0) + 1 })) ∧
    (((APNGHandler.ensureParsed png h).1 = false ∨
        (APNGHandler.ensureParsed png h).2.m_frames = []) →
      APNGHandler.read png h = some (false, none, (APNGHandler.ensureParsed png h).2)) ∧
    (APNGHandler.ensureParsed png h).2.m_currentFrame = h.m_currentFrame := by
  have hcur : (APNGHandler.ensureParsed png h).2.m_currentFrame = h.m_currentFrame := by
    unfold APNGHandler.ensureParsed
    split_ifs <;> rfl
  refine ⟨fun hok hne hlt => ?_, fun hfail => ?_, hcur⟩
  · have hpos : 0 < (APNGHandler.ensureParsed png h).2.m_frames.length :=
      List.length_pos.2 hne
    have hnotempty : (APNGHandler.ensureParsed png h).2.m_frames.isEmpty = false := by
      cases hfr : (APNGHandler.ensureParsed png h).2.m_frames with
      | nil => exact absurd hfr hne
      | cons a t => rfl
    have hsel : (if (APNGHandler.ensureParsed png h).2.m_currentFrame < 0 ∨
          (APNGHandler.ensureParsed png h).2.m_currentFrame
            ≥ (APNGHandler.ensureParsed png h).2.m_frames.length then (0 : Int)
        else (APNGHandler.ensureParsed png h).2.m_currentFrame)
        = (if 0 ≤ h.m_currentFrame ∧
              h.m_currentFrame < (APNGHandler.ensureParsed png h).2.m_frames.length
            then h.m_currentFrame else 0) := by
      rw [hcur]
      split_ifs <;> omega
    have hj0 : (0 : Int) ≤ (if 0 ≤ h.m_currentFrame ∧
              h.m_currentFrame < (APNGHandler.ensureParsed png h).2.m_frames.length
            then h.m_currentFrame else 0) := by
      split_ifs <;> omega
    have hj1 : (if 0 ≤ h.m_currentFrame ∧
              h.m_currentFrame < (APNGHandler.ensureParsed png h).2.m_frames.length
            then h.m_currentFrame else 0)
          < (APNGHandler.ensureParsed png h).2.m_frames.length := by
      split_ifs <;> omega
    obtain ⟨img, himg, hget⟩ := vectorAt_lt (APNGHandler.ensureParsed png h).2.m_frames _ hj0 hj1
    have hwrap : wrapInt32 ((if 0 ≤ h.m_currentFrame ∧
              h.m_currentFrame < (APNGHandler.ensureParsed png h).2.m_frames.length
            then h.m_currentFrame else 0) + 1)
        = (if 0 ≤ h.m_currentFrame ∧
              h.m_currentFrame < (APNGHandler.ensureParsed png h).2.m_frames.length
            then h.m_currentFrame else 0) + 1 := by
      have i32 : (2 : Int) ^ 32 = 4294967296 := by norm_num
      have i31 : (2 : Int) ^ 31 = 2147483648 := by norm_num
      have n31 : (2 : Nat) ^ 31 = 2147483648 := by norm_num
      unfold wrapInt32
      rw [i32, i31]
      rw [n31] at hlt
      omega
    refine ⟨img, hget, ?_⟩
    unfold APNGHandler.read
    simp only []
    rw [if_pos hok, hnotempty, hsel, himg]
    simp only [Bool.false_eq_true, if_false]
    rw [hwrap]
  · unfold APNGHandler.read
    simp only []
    rcases hfail with hf | he
    · rw [if_neg (by rw [hf]; decide)]
    · by_cases hok : (APNGHandler.ensureParsed png h).1 = true
      · rw [if_pos hok, he]
        rfl
      · rw [if_neg hok]

/-- C14 (witness): two decoded frames, the cursor beyond the sequence. -/
theorem read_spec_witness :
    (∃ img,
      (APNGHandler.ensureParsed idlePng (twoFrames 5)).2.m_frames[
        (if 0 ≤ (twoFrames 5).m_currentFrame ∧
            (twoFrames 5).m_currentFrame
              < (APNGHandler.ensureParsed idlePng (twoFrames 5)).2.m_frames.length
          then (twoFrames 5).m_currentFrame else 0).toNat]? = some img ∧
      APNGHandler.read idlePng (twoFrames 5) = some (true, some img,
        { (APNGHandler.ensureParsed idlePng (twoFrames 5)).2 with
          m_currentFrame :=
            (if 0 ≤ (twoFrames 5).m_currentFrame ∧
                (twoFrames 5).m_currentFrame
                  < (APNGHandler.ensureParsed idlePng (twoFrames 5)).2.m_frames.length
              then (twoFrames 5).m_currentFrame else 0) + 1 })) ∧
    APNGHandler.read idlePng textHandler
      = some (false, none, (APNGHandler.ensureParsed idlePng textHandler).2) :=
  ⟨(read_spec idlePng (twoFrames 5)).1 (by decide) (by decide) (by decide),
    (read_spec idlePng textHandler).2.1 (Or.inl (by decide))⟩

/-- C15 (code evaluated at the failing input): on a fresh handler over a byte source that is
no PNG stream the first `nextImageDelay` finds the decode failed and returns `0`; the second
one, like a `nextImageDelay` after an `imageCount`, finds `m_parsed` set, takes the decode for
done and reads `m_delays.at(0)` of the empty delay list. -/
theorem nextImageDelay_repeated_after_failure :
    (APNGHandler.ensureParsed idlePng textHandler).1 = false ∧
    (APNGHandler.ensureParsed idlePng textHandler).2.m_delays = [] ∧
    APNGHandler.nextImageDelay idlePng textHandler
      = some (0, (APNGHandler.ensureParsed idlePng textHandler).2) ∧
    APNGHandler.nextImageDelay idlePng (APNGHandler.ensureParsed idlePng textHandler).2 = none ∧
    APNGHandler.nextImageDelay idlePng (APNGHandler.imageCount idlePng textHandler).2 = none := by
  decide

/-- C20 (counterexample): on a handler over two decoded frames, starting from cursor 0, two
`read` calls leave the cursor at 2, which is `imageCount()`, not below it; and
`jumpToImage(7)` returns `false` and leaves the cursor at 7. -/
theorem cursor_leaves_range :
    runOps idlePng (twoFrames 0) [CursorOp.read, CursorOp.read] = some (twoFrames 2) ∧
    (APNGHandler.currentImageNumber idlePng (twoFrames 2)).1 = 2 ∧
    (APNGHandler.imageCount idlePng (twoFrames 2)).1 = 2 ∧
    runOps idlePng (twoFrames 0) [CursorOp.jumpToImage 7] = some (twoFrames 7) ∧
    (APNGHandler.currentImageNumber idlePng (twoFrames 7)).1 = 7 ∧
    APNGHandler.jumpToImage idlePng (twoFrames 0) 7 = (false, twoFrames 7) := by
  decide

theorem wrapInt32_small (i : Int) (h0 : 0 ≤ i) (h1 : i < 2 ^ 31) : wrapInt32 i = i := by
  have i32 : (2 : Int) ^ 32 = 4294967296 := by norm_num
  have i31 : (2 : Int) ^ 31 = 2147483648 := by norm_num
  unfold wrapInt32
  rw [i32, i31] at *
  omega

theorem applyOp_cursor {σ : Type} (png : LibPng σ) (h : APNGHandler) (op : CursorOp)
    (hp : h.m_parsed = true) (hne : h.m_frames ≠ [])
    (hlt : (h.m_frames.length : Int) < 2 ^ 31 - 1)
    (hc0 : 0 ≤ h.m_currentFrame) (hc1 : h.m_currentFrame ≤ h.m_frames.length) :
    ∃ r h1, applyOp png h op = some (r, h1) ∧ h1.m_parsed = true ∧ h1.m_frames = h.m_frames ∧
      ((op = CursorOp.read ∨ r = true) →
        0 ≤ h1.m_currentFrame ∧ h1.m_currentFrame ≤ h.m_frames.length) := by
  have hens := APNGHandler.ensureParsed_parsed png h hp
  have hpos : 0 < h.m_frames.length := List.length_pos.2 hne
  cases op with
  | read =>
    have hnotempty : h.m_frames.isEmpty = false := by
      cases hfr : h.m_frames with
      | nil => exact absurd hfr hne
      | cons a t => rfl
    have hj0 : (0 : Int) ≤ (if h.m_currentFrame < 0 ∨ h.m_currentFrame ≥ h.m_frames.length
        then (0 : Int) else h.m_currentFrame) := by
      split_ifs <;> omega
    have hj1 : (if h.m_currentFrame < 0 ∨ h.m_currentFrame ≥ h.m_frames.length
        then (0 : Int) else h.m_currentFrame) < h.m_frames.length := by
      split_ifs <;> omega
    obtain ⟨img, himg, -⟩ := vectorAt_lt h.m_frames _ hj0 hj1
    have hread : APNGHandler.read png h = some (true, some img,
        { h with m_currentFrame := wrapInt32 ((if h.m_currentFrame < 0 ∨
            h.m_currentFrame ≥ h.m_frames.length then (0 : Int) else h.m_currentFrame) + 1) }) := by
      unfold APNGHandler.read
      simp only [hens, if_true, hnotempty, Bool.false_eq_true, if_false, himg]
    refine ⟨true, { h with m_currentFrame := wrapInt32 ((if h.m_currentFrame < 0 ∨
      h.m_currentFrame ≥ h.m_frames.length then (0 : Int) else h.m_currentFrame) + 1) },
      ?_, hp, rfl, fun _ => ?_⟩
    · show (APNGHandler.read png h).map _ = _
      rw [hread]
      rfl
    · show 0 ≤ wrapInt32 _ ∧ wrapInt32 _ ≤ _
      rw [wrapInt32_small _ (by omega) (by omega)]
      omega
  | jumpToImage n =>
    by_cases hn : n < 0
    · refine ⟨false, h, ?_, hp, rfl, fun hc => ?_⟩
      · show some (APNGHandler.jumpToImage png h n) = _
        unfold APNGHandler.jumpToImage
        simp only [hens]
        rw [if_pos (Or.inr hn)]
      · rcases hc with hc | hc
        · exact absurd hc (fun hx => CursorOp.noConfusion hx)
        · exact absurd hc (fun hx => Bool.noConfusion hx)
    · refine ⟨decide (n < h.m_frames.length), { h with m_currentFrame := n }, ?_, hp, rfl,
        fun hc => ?_⟩
      · show some (APNGHandler.jumpToImage png h n) = _
        unfold APNGHandler.jumpToImage
        simp only [hens]
        rw [if_neg (by simp [hn])]
      · rcases hc with hc | hc
        · exact absurd hc (fun hx => CursorOp.noConfusion hx)
        · have := of_decide_eq_true hc
          show 0 ≤ n ∧ n ≤ _
          omega
  | jumpToNextImage =>
    refine ⟨decide (wrapInt32 (h.m_currentFrame + 1) < h.m_frames.length),
      { h with m_currentFrame := wrapInt32 (h.m_currentFrame + 1) }, ?_, hp, rfl, fun hc => ?_⟩
    · show some (APNGHandler.jumpToNextImage png h) = _
      unfold APNGHandler.jumpToNextImage
      simp only [hens, if_true]
    · rcases hc with hc | hc
      · exact absurd hc (fun hx => CursorOp.noConfusion hx)
      · have := of_decide_eq_true hc
        rw [wrapInt32_small _ (by omega) (by omega)] at this
        show 0 ≤ wrapInt32 _ ∧ wrapInt32 _ ≤ _
        rw [wrapInt32_small _ (by omega) (by omega)]
        omega

theorem runOps_cursor {σ : Type} (png : LibPng σ) (ops : List CursorOp) (h : APNGHandler)
    (hp : h.m_parsed = true) (hne : h.m_frames ≠ [])
    (hlt : (h.m_frames.length : Int) < 2 ^ 31 - 1)
    (hc0 : 0 ≤ h.m_currentFrame) (hc1 : h.m_currentFrame ≤ h.m_frames.length)
    (hj : jumpsSucceed png h ops = true) :
    ∃ h1, runOps png h ops = some h1 ∧ h1.m_parsed = true ∧ h1.m_frames = h.m_frames ∧
      0 ≤ h1.m_currentFrame ∧ h1.m_currentFrame ≤ h.m_frames.length := by
  induction ops generalizing h with
  | nil => exact ⟨h, rfl, hp, rfl, hc0, hc1⟩
  | cons op rest ih =>
    obtain ⟨r, h1, happ, hp1, hf1, hcur⟩ := applyOp_cursor png h op hp hne hlt hc0 hc1
    unfold jumpsSucceed at hj
    rw [happ] at hj
    simp only [Bool.and_eq_true, Bool.or_eq_true, decide_eq_true_eq] at hj
    obtain ⟨hok, hrest⟩ := hj
    obtain ⟨hn0, hn1⟩ := hcur hok
    obtain ⟨h2, hrun, hp2, hf2, h20, h21⟩ := ih h1 hp1 (by rw [hf1]; exact hne)
      (by rw [hf1]; exact hlt) hn0 (by rw [hf1]; exact hn1) hrest
    refine ⟨h2, ?_, hp2, hf2.trans hf1, h20, by rw [hf1] at h21; exact h21⟩
    unfold runOps
    rw [happ]
    exact hrun

theorem read_parsed {σ : Type} (png : LibPng σ) (h : APNGHandler)
    (hp : h.m_parsed = true) (hne : h.m_frames ≠ [])
    (hlt : (h.m_frames.length : Int) < 2 ^ 31 - 1)
    (hc0 : 0 ≤ h.m_currentFrame) :
    ∃ img, APNGHandler.read png h = some (true, some img,
      { h with m_currentFrame :=
          (if h.m_currentFrame < h.m_frames.length then h.m_currentFrame else 0) + 1 }) := by
  have hens := APNGHandler.ensureParsed_parsed png h hp
  have hpos : 0 < h.m_frames.length := List.length_pos.2 hne
  have hnotempty : h.m_frames.isEmpty = false := by
    cases hfr : h.m_frames with
    | nil => exact absurd hfr hne
    | cons a t => rfl
  have hsel : (if h.m_currentFrame < 0 ∨ h.m_currentFrame ≥ h.m_frames.length
      then (0 : Int) else h.m_currentFrame)
      = (if h.m_currentFrame < h.m_frames.length then h.m_currentFrame else 0) := by
    split_ifs <;> omega
  have hj0 : (0 : Int) ≤ (if h.m_currentFrame < h.m_frames.length
      then h.m_currentFrame else 0) := by
    split_ifs <;> omega
  have hj1 : (if h.m_currentFrame < h.m_frames.length then h.m_currentFrame else 0)
      < h.m_frames.length := by
    split_ifs <;> omega
  obtain ⟨img, himg, -⟩ := vectorAt_lt h.m_frames _ hj0 hj1
  refine ⟨img, ?_⟩
  unfold APNGHandler.read
  simp only [hens, if_true, hnotempty, Bool.false_eq_true, if_false, hsel, himg]
  rw [wrapInt32_small _ (by omega) (by omega)]

theorem jumpToImage_beyond {σ : Type} (png : LibPng σ) (h : APNGHandler)
    (hp : h.m_parsed = true) (n : Int) (hn : (h.m_frames.length : Int) ≤ n) :
    APNGHandler.jumpToImage png h n = (false, { h with m_currentFrame := n }) := by
  have hens := APNGHandler.ensureParsed_parsed png h hp
  unfold APNGHandler.jumpToImage
  simp only [hens]
  rw [if_neg (by simp; omega)]
  simp only [Prod.mk.injEq, decide_eq_false_iff_not, and_true]
  omega

theorem jumpToNextImage_beyond {σ : Type} (png : LibPng σ) (h : APNGHandler)
    (hp : h.m_parsed = true) (hc0 : 0 ≤ h.m_currentFrame)
    (hc1 : h.m_currentFrame < 2 ^ 31 - 1)
    (hn : (h.m_frames.length : Int) ≤ h.m_currentFrame + 1) :
    APNGHandler.jumpToNextImage png h
      = (false, { h with m_currentFrame := h.m_currentFrame + 1 }) := by
  have hens := APNGHandler.ensureParsed_parsed png h hp
  unfold APNGHandler.jumpToNextImage
  simp only [hens, if_true]
  rw [wrapInt32_small _ (by omega) (by omega)]
  simp only [Prod.mk.injEq, decide_eq_false_iff_not, and_true]
  omega

/-- C20 (amended): for a handler over a non-empty decoded sequence of `len` frames (`len`
below `2^31 - 1`), starting from cursor 0, every sequence of `read`, `jumpToImage(n)` and
`jumpToNextImage` calls in which each `jumpToImage` and `jumpToNextImage` returned `true` runs
without an access out of range and leaves `0 ≤ currentImageNumber() ≤ imageCount()`, the
frames being the same. In the state `h1` so reached, with cursor `c`: `read` succeeds and
leaves the cursor at `c + 1` when `c < imageCount()` and at `1` when `c = imageCount()`
(it starts over at frame 0), so the cursor is `imageCount()` right after the last frame was
read; `jumpToImage(n)` with `n ≥ imageCount()` returns `false` and leaves the cursor at `n`;
`jumpToNextImage` at `c ≥ imageCount() - 1` returns `false` and leaves the cursor at `c + 1`;
after either the cursor is at or beyond `imageCount()`. -/
theorem cursor_within_closed_range {σ : Type} (png : LibPng σ) (h : APNGHandler)
    (ops : List CursorOp) (hp : h.m_parsed = true) (hne : h.m_frames ≠ [])
    (hlt : (h.m_frames.length : Int) < 2 ^ 31 - 1) (hc : h.m_currentFrame = 0)
    (hj : jumpsSucceed png h ops = true) :
    ∃ h1, runOps png h ops = some h1 ∧ h1.m_frames = h.m_frames ∧
      0 ≤ (APNGHandler.currentImageNumber png h1).1 ∧
      (APNGHandler.currentImageNumber png h1).1 ≤ (APNGHandler.imageCount png h1).1 ∧
      (∃ img, APNGHandler.read png h1 = some (true, some img,
        { h1 with m_currentFrame :=
            (if (APNGHandler.currentImageNumber png h1).1 < (APNGHandler.imageCount png h1).1
              then (APNGHandler.currentImageNumber png h1).1 else 0) + 1 })) ∧
      (∀ n : Int, (APNGHandler.imageCount png h1).1 ≤ n →
        APNGHandler.jumpToImage png h1 n = (false, { h1 with m_currentFrame := n }) ∧
        (APNGHandler.imageCount png (APNGHandler.jumpToImage png h1 n).2).1
          ≤ (APNGHandler.currentImageNumber png (APNGHandler.jumpToImage png h1 n).2).1) ∧
      ((APNGHandler.imageCount png h1).1 ≤ (APNGHandler.currentImageNumber png h1).1 + 1 →
        APNGHandler.jumpToNextImage png h1
          = (false,
              { h1 with m_currentFrame := (APNGHandler.currentImageNumber png h1).1 + 1 }) ∧
        (APNGHandler.imageCount png (APNGHandler.jumpToNextImage png h1).2).1
          ≤ (APNGHandler.currentImageNumber png (APNGHandler.jumpToNextImage png h1).2).1) := by
  obtain ⟨h1, hrun, hp1, hf1, h0, h1le⟩ := runOps_cursor png ops h hp hne hlt
    (by rw [hc]) (by rw [hc]; omega) hj
  have hcur : ∀ g : APNGHandler, g.m_parsed = true →
      (APNGHandler.currentImageNumber png g).1 = g.m_currentFrame := by
    intro g hg
    unfold APNGHandler.currentImageNumber
    rw [APNGHandler.ensureParsed_parsed png g hg]
    rfl
  have hcnt : ∀ g : APNGHandler, g.m_parsed = true →
      (APNGHandler.imageCount png g).1 = (g.m_frames.length : Int) := by
    intro g hg
    unfold APNGHandler.imageCount
    rw [APNGHandler.ensureParsed_parsed png g hg]
    rfl
  have hlen1 : (h1.m_frames.length : Int) = h.m_frames.length := by rw [hf1]
  refine ⟨h1, hrun, hf1, ?_, ?_, ?_, fun n hn => ?_, fun hn => ?_⟩
  · rw [hcur h1 hp1]
    exact h0
  · rw [hcur h1 hp1, hcnt h1 hp1, hlen1]
    exact h1le
  · rw [hcur h1 hp1, hcnt h1 hp1]
    exact read_parsed png h1 hp1 (by rw [hf1]; exact hne) (by rw [hlen1]; exact hlt) h0
  · rw [hcnt h1 hp1] at hn
    have hjmp := jumpToImage_beyond png h1 hp1 n hn
    refine ⟨hjmp, ?_⟩
    rw [hjmp]
    show (APNGHandler.imageCount png { h1 with m_currentFrame := n }).1
      ≤ (APNGHandler.currentImageNumber png { h1 with m_currentFrame := n }).1
    rw [hcur { h1 with m_currentFrame := n } hp1, hcnt { h1 with m_currentFrame := n } hp1]
    exact hn
  · rw [hcur h1 hp1, hcnt h1 hp1] at hn
    have hjmp := jumpToNextImage_beyond png h1 hp1 h0 (by omega) hn
    rw [hcur h1 hp1]
    refine ⟨hjmp, ?_⟩
    rw [hjmp]
    show (APNGHandler.imageCount png { h1 with m_currentFrame := h1.m_currentFrame + 1 }).1
      ≤ (APNGHandler.currentImageNumber png
          { h1 with m_currentFrame := h1.m_currentFrame + 1 }).1
    rw [hcur { h1 with m_currentFrame := h1.m_currentFrame + 1 } hp1,
      hcnt { h1 with m_currentFrame := h1.m_currentFrame + 1 } hp1]
    exact hn

/-- C20 (amended, witness): two decoded frames; a jump to frame 1 and a read of it, which
leaves the cursor at 2, the frame count: the next read starts over and leaves the cursor at
1, `jumpToImage(7)` returns `false` with the cursor at 7 and `jumpToNextImage` returns `false`
with the cursor at 3. -/
theorem cursor_within_closed_range_witness :
    runOps idlePng (twoFrames 0) [CursorOp.jumpToImage 1, CursorOp.read] = some (twoFrames 2) ∧
    (∃ h1, runOps idlePng (twoFrames 0) [CursorOp.jumpToImage 1, CursorOp.read] = some h1 ∧
      h1.m_frames = (twoFrames 0).m_frames ∧
      0 ≤ (APNGHandler.currentImageNumber idlePng h1).1 ∧
      (APNGHandler.currentImageNumber idlePng h1).1 ≤ (APNGHandler.imageCount idlePng h1).1 ∧
      (∃ img, APNGHandler.read idlePng h1 = some (true, some img,
        { h1 with m_currentFrame :=
            (if (APNGHandler.currentImageNumber idlePng h1).1
                < (APNGHandler.imageCount idlePng h1).1
              then (APNGHandler.currentImageNumber idlePng h1).1 else 0) + 1 })) ∧
      (∀ n : Int, (APNGHandler.imageCount idlePng h1).1 ≤ n →
        APNGHandler.jumpToImage idlePng h1 n = (false, { h1 with m_currentFrame := n }) ∧
        (APNGHandler.imageCount idlePng (APNGHandler.jumpToImage idlePng h1 n).2).1
          ≤ (APNGHandler.currentImageNumber idlePng
              (APNGHandler.jumpToImage idlePng h1 n).2).1) ∧
      ((APNGHandler.imageCount idlePng h1).1
          ≤ (APNGHandler.currentImageNumber idlePng h1).1 + 1 →
        APNGHandler.jumpToNextImage idlePng h1
          = (false,
              { h1 with
                m_currentFrame := (APNGHandler.currentImageNumber idlePng h1).1 + 1 }) ∧
        (APNGHandler.imageCount idlePng (APNGHandler.jumpToNextImage idlePng h1).2).1
          ≤ (APNGHandler.currentImageNumber idlePng
              (APNGHandler.jumpToNextImage idlePng h1).2).1)) ∧
    APNGHandler.jumpToImage idlePng (twoFrames 2) 7 = (false, twoFrames 7) ∧
    APNGHandler.jumpToNextImage idlePng (twoFrames 2) = (false, twoFrames 3) :=
  ⟨by decide,
    cursor_within_closed_range idlePng (twoFrames 0) [CursorOp.jumpToImage 1, CursorOp.read]
      (by decide) (by decide) (by decide) (by decide) (by decide),
    by decide, by decide⟩

/-! ## The output alpha of `blendFrame` -/

theorem outA_cast (sa da : Nat) (h1 : sa < 255) :
    (sa : Int) + (da : Int) * (0xff - (sa : Int)) / 0xff
      = ((sa + da * (255 - sa) / 255 : Nat) : Int) := by
  have hsub : (((255 - sa : Nat)) : Int) = 255 - (sa : Int) := by omega
  rw [Nat.cast_add, Int.natCast_div, Nat.cast_mul, hsub]
  rfl

theorem outA_bounds (sa da : Nat) (h1 : sa < 255) (hd : da ≤ 255) :
    sa ≤ sa + da * (255 - sa) / 255 ∧ sa + da * (255 - sa) / 255 ≤ 255 := by
  have hmul : da * (255 - sa) ≤ 255 * (255 - sa) := Nat.mul_le_mul_right _ hd
  have hdiv : da * (255 - sa) / 255 ≤ 255 - sa := by
    apply Nat.div_le_of_le_mul
    exact hmul
  omega

theorem qBound_range (v : Int) : 0 ≤ qBound 0 v 255 ∧ qBound 0 v 255 ≤ 255 := by
  unfold qBound
  omega

/-- C21: in `blendFrame`, for a source alpha `sa` with `0 < sa < 255` and a destination alpha
`da` in `0..255`, the output alpha `outA = sa + da * (255 - sa) / 255` (integer division)
satisfies `sa ≤ outA ≤ 255` and is not `0`; so the branch `outA == 0` is not taken: a colour is
computed (the divisions by `outA` are by a positive number), it is a valid colour, and the
alpha it carries is `outA`, an 8-bit value; the loop body stores that colour. -/
theorem blendColor_alpha_bounds (src dst : QColor) (h0 : 0 < src.alpha)
    (h1 : src.alpha < 255) (hd : dst.alpha ≤ 255) :
    src.alpha ≤ src.alpha + dst.alpha * (255 - src.alpha) / 255 ∧
    src.alpha + dst.alpha * (255 - src.alpha) / 255 ≤ 255 ∧
    src.alpha + dst.alpha * (255 - src.alpha) / 255 ≠ 0 ∧
    (∃ c, blendColor src dst = some c ∧ c.valid = true ∧
      c.alpha = src.alpha + dst.alpha * (255 - src.alpha) / 255) ∧
    (∀ (dest : QImage) (f : FrameBuf) (x y : Nat), framePixel f x y = src →
      dest.pixelColor (canvasCoord x f.x) (canvasCoord y f.y) = dst →
      ∃ c, c.valid = true ∧ c.alpha = src.alpha + dst.alpha * (255 - src.alpha) / 255 ∧
        blendPixel dest f x y
          = dest.setPixelColor (canvasCoord x f.x) (canvasCoord y f.y) c) := by
  obtain ⟨hlo, hhi⟩ := outA_bounds src.alpha dst.alpha h1 hd
  have hne : src.alpha + dst.alpha * (255 - src.alpha) / 255 ≠ 0 := by omega
  have hcast := outA_cast src.alpha dst.alpha h1
  have hcol : ∃ c, blendColor src dst = some c ∧ c.valid = true ∧
      c.alpha = src.alpha + dst.alpha * (255 - src.alpha) / 255 := by
    unfold blendColor
    simp only []
    rw [hcast, if_pos (by omega)]
    refine ⟨_, rfl, ?_, ?_⟩
    · unfold QColor.setRgb
      rw [if_pos ⟨(qBound_range _).1, (qBound_range _).2, (qBound_range _).1,
        (qBound_range _).2, (qBound_range _).1, (qBound_range _).2, by omega, by omega⟩]
    · unfold QColor.setRgb
      rw [if_pos ⟨(qBound_range _).1, (qBound_range _).2, (qBound_range _).1,
        (qBound_range _).2, (qBound_range _).1, (qBound_range _).2, by omega, by omega⟩]
      exact Int.toNat_ofNat _
  refine ⟨hlo, hhi, hne, hcol, fun dest f x y hsrc hdst => ?_⟩
  obtain ⟨c, hc, hv, ha⟩ := hcol
  refine ⟨c, hv, ha, ?_⟩
  unfold blendPixel
  simp only []
  rw [hsrc, if_neg (by omega), if_pos (by omega)]
  show (match blendColor src (dest.pixelColor (canvasCoord x f.x) (canvasCoord y f.y)) with
    | some c => dest.setPixelColor (canvasCoord x f.x) (canvasCoord y f.y) c
    | none => dest) = _
  rw [hdst, hc]

/-- C21 (witness): the half-transparent green source `(0, 255, 0, 128)` over a destination of
alpha `128`: the output alpha is `191`. -/
theorem blendColor_alpha_bounds_witness :
    (128 : Nat) ≤ 128 + 128 * (255 - 128) / 255 ∧
    128 + 128 * (255 - 128) / 255 ≤ 255 ∧
    128 + 128 * (255 - 128) / 255 ≠ 0 ∧
    (∃ c, blendColor ⟨true, 0, 255, 0, 128⟩ ⟨true, 255, 0, 0, 128⟩ = some c ∧ c.valid = true ∧
      c.alpha = 128 + 128 * (255 - 128) / 255) :=
  ⟨(blendColor_alpha_bounds ⟨true, 0, 255, 0, 128⟩ ⟨true, 255, 0, 0, 128⟩ (by decide)
      (by decide) (by decide)).1,
    (blendColor_alpha_bounds ⟨true, 0, 255, 0, 128⟩ ⟨true, 255, 0, 0, 128⟩ (by decide)
      (by decide) (by decide)).2.1,
    (blendColor_alpha_bounds ⟨true, 0, 255, 0, 128⟩ ⟨true, 255, 0, 0, 128⟩ (by decide)
      (by decide) (by decide)).2.2.1,
    (blendColor_alpha_bounds ⟨true, 0, 255, 0, 128⟩ ⟨true, 255, 0, 0, 128⟩ (by decide)
      (by decide) (by decide)).2.2.2.1⟩

end QApng
